import Mathlib

/-!
Shallow embedding of the LEAP sequential orchestrator
(`leap_agent/orchestrator.py`), covering the response parser
`_parse_tool_request`, the result filter `_filter_response`, the tool
execution phase `_phase2_execution`, the turn loop `run`, and the
orchestration metrics, together with theorems checking the stated
properties of these components.

Python strings are modelled as `List Char`; Python dicts produced by
`json.loads` are association lists without duplicate keys (later
assignments overwrite in place, as in CPython); the Ollama generation
backend is an oracle `Nat → Except message text` indexed by call number,
a `RuntimeError` raised by `OllamaInference.generate` being the
`Except.error` case.
-/

namespace LEAP

/-- Python strings, modelled as lists of characters. -/
abbrev Str := List Char

/-- Characters of a Lean string literal. -/
def chars (s : String) : Str := s.data

/-- The ASCII fragment of Python's regex class `\s`. -/
def isPySpace (c : Char) : Bool :=
  c = ' ' || c = '\t' || c = '\n' || c = '\r' || c = '\x0b' || c = '\x0c'

/-- Whitespace skipped by Python's `json` scanner. -/
def isJsonWs (c : Char) : Bool :=
  c = ' ' || c = '\t' || c = '\n' || c = '\r'

/-- Split `cs` around the first occurrence of `pat`: returns the part
before the occurrence and the part after it. `none` when `pat` does not
occur in `cs`. -/
def splitFirst (pat : Str) (cs : Str) : Option (Str × Str) :=
  if pat.isPrefixOf cs then some ([], cs.drop pat.length)
  else
    match cs with
    | [] => none
    | c :: rest =>
      match splitFirst pat rest with
      | none => none
      | some (p, r) => some (c :: p, r)

theorem splitFirst_length {pat cs p r : Str}
    (h : splitFirst pat cs = some (p, r)) :
    cs.length = p.length + pat.length + r.length := by
  induction cs generalizing p r with
  | nil =>
    unfold splitFirst at h
    by_cases hp : pat.isPrefixOf ([] : Str)
    · have hpat : pat = [] := List.prefix_nil.mp (List.isPrefixOf_iff_prefix.mp hp)
      subst hpat
      simp [hp] at h
      obtain ⟨h1, h2⟩ := h
      simp [h1, h2]
    · simp [hp] at h
  | cons c rest ih =>
    unfold splitFirst at h
    by_cases hp : pat.isPrefixOf (c :: rest)
    · simp [hp] at h
      obtain ⟨h1, h2⟩ := h
      have hpre : pat <+: c :: rest := List.isPrefixOf_iff_prefix.mp hp
      have hlen : pat.length ≤ (c :: rest).length := hpre.length_le
      subst h1 h2
      simp [List.length_drop, List.length_cons] at hlen ⊢
      omega
    · simp [hp] at h
      match hm : splitFirst pat rest with
      | none => simp [hm] at h
      | some (p', r') =>
        simp [hm] at h
        obtain ⟨h1, h2⟩ := h
        have := ih hm
        subst h1 h2
        simp
        omega

/-- Occurrence of `pat` as a contiguous substring of `cs`. -/
def occurs (pat cs : Str) : Bool := (splitFirst pat cs).isSome

/-- The opening reasoning-trace marker. -/
def thinkOpen : Str := chars "<think>"

/-- The closing reasoning-trace marker. -/
def thinkClose : Str := chars "</think>"

/-- Embedding of `re.sub(r'<think>.*?</think>', '', text, flags=re.DOTALL)`:
the scan finds the leftmost `<think>`, lazily matches up to the first
subsequent `</think>`, removes the span and continues after it; an
opening marker with no later closing marker matches nothing (in that
case no later opening marker can match either, since any closing marker
after it would also close the earlier one). -/
def stripThinkFuel : Nat → Str → Str
  | 0, cs => cs
  | fuel + 1, cs =>
    match splitFirst thinkOpen cs with
    | none => cs
    | some (pre, rest) =>
      match splitFirst thinkClose rest with
      | none => cs
      | some (_, tl) => pre ++ stripThinkFuel fuel tl

/-- The fuel wrapper for `stripThinkFuel`: each removal consumes at
least the fifteen marker characters, so `length + 1` steps always
suffice. -/
def stripThink (cs : Str) : Str := stripThinkFuel (cs.length + 1) cs

theorem length_dropWhile_le (p : Char → Bool) (l : Str) :
    (l.dropWhile p).length ≤ l.length := by
  induction l with
  | nil => simp [List.dropWhile]
  | cons c rest ih =>
    by_cases h : p c
    · simp [List.dropWhile, h]
      omega
    · simp [List.dropWhile, h]

theorem subPat_step_lt (c : Char) (rest : Str) (n : Nat) (hn : 0 < n) :
    ((List.drop n (c :: rest)).dropWhile isPySpace).length < (c :: rest).length := by
  have h1 := length_dropWhile_le isPySpace (List.drop n (c :: rest))
  have h2 : (List.drop n (c :: rest)).length = (c :: rest).length - n := List.length_drop _ _
  simp only [List.length_cons] at h1 h2 ⊢
  omega

/-- Embedding of `re.sub(pat + r'\s*', '', text)` for a literal pattern
`pat` followed by a greedy whitespace run (the two fence patterns
"```json" and "```" of `_parse_tool_request`): scan left to right; on a
match remove the pattern together with the following whitespace run and
continue scanning after it. -/
def subPatWsFuel (p0 : Char) (ps : Str) : Nat → Str → Str
  | _, [] => []
  | 0, cs => cs
  | fuel + 1, c :: rest =>
    if (p0 :: ps).isPrefixOf (c :: rest) then
      subPatWsFuel p0 ps fuel (((c :: rest).drop (p0 :: ps).length).dropWhile isPySpace)
    else c :: subPatWsFuel p0 ps fuel rest

/-- The fuel wrapper for `subPatWsFuel`: every step consumes at least
one character, so `length` steps always suffice (the pattern is passed
as a head character plus tail and hence never empty). -/
def subPatWs (p0 : Char) (ps : Str) (cs : Str) : Str := subPatWsFuel p0 ps cs.length cs

theorem subPatWsFuel_congr (p0 : Char) (ps : Str) :
    ∀ (fuel : Nat) (cs : Str) (fuel' : Nat), cs.length ≤ fuel → cs.length ≤ fuel' →
      subPatWsFuel p0 ps fuel cs = subPatWsFuel p0 ps fuel' cs := by
  intro fuel
  induction fuel with
  | zero =>
    intro cs fuel' h _
    have : cs = [] := List.length_eq_zero.mp (Nat.le_zero.mp h)
    subst this
    simp [subPatWsFuel]
  | succ f ih =>
    intro cs fuel' h h'
    match cs, fuel' with
    | [], _ => simp [subPatWsFuel]
    | c :: rest, 0 => simp at h'
    | c :: rest, f' + 1 =>
      simp only [subPatWsFuel]
      by_cases hp : (p0 :: ps).isPrefixOf (c :: rest)
      · simp only [hp, if_true]
        apply ih
        · have := subPat_step_lt c rest (p0 :: ps).length (by simp)
          simp only [List.length_cons] at this h ⊢
          omega
        · have := subPat_step_lt c rest (p0 :: ps).length (by simp)
          simp only [List.length_cons] at this h' ⊢
          omega
      · simp only [hp, Bool.false_eq_true, if_false]
        rw [ih rest f' (by simp at h; omega) (by simp at h'; omega)]

/-- Python `str.strip()` on ASCII whitespace. -/
def pyStrip (cs : Str) : Str :=
  ((cs.dropWhile isPySpace).reverse.dropWhile isPySpace).reverse

/-- JSON values as decoded by Python's `json` module. Numbers keep
their literal text (Python converts them to int/float; no claim
distinguishes numeric values beyond their source text). Objects are
association lists without duplicate keys: as in a Python dict, a
repeated key keeps its first position and the latest value. -/
inductive Json where
  | null
  | bool (b : Bool)
  | num (lit : Str)
  | str (s : Str)
  | arr (elems : List Json)
  | obj (members : List (Str × Json))

instance : Inhabited Json := ⟨Json.null⟩

mutual
/-- Decidable equality on `Json` (the automatic deriving does not
handle the nested list occurrences). -/
def Json.decEq : (a b : Json) → Decidable (a = b)
  | .null, .null => isTrue rfl
  | .bool x, .bool y =>
    if h : x = y then isTrue (by rw [h]) else isFalse (fun hc => h (Json.bool.inj hc))
  | .num x, .num y =>
    if h : x = y then isTrue (by rw [h]) else isFalse (fun hc => h (Json.num.inj hc))
  | .str x, .str y =>
    if h : x = y then isTrue (by rw [h]) else isFalse (fun hc => h (Json.str.inj hc))
  | .arr xs, .arr ys =>
    match Json.decEqList xs ys with
    | isTrue h => isTrue (by rw [h])
    | isFalse h => isFalse (fun hc => h (Json.arr.inj hc))
  | .obj xs, .obj ys =>
    match Json.decEqMembers xs ys with
    | isTrue h => isTrue (by rw [h])
    | isFalse h => isFalse (fun hc => h (Json.obj.inj hc))
  | .null, .bool _ => isFalse nofun
  | .null, .num _ => isFalse nofun
  | .null, .str _ => isFalse nofun
  | .null, .arr _ => isFalse nofun
  | .null, .obj _ => isFalse nofun
  | .bool _, .null => isFalse nofun
  | .bool _, .num _ => isFalse nofun
  | .bool _, .str _ => isFalse nofun
  | .bool _, .arr _ => isFalse nofun
  | .bool _, .obj _ => isFalse nofun
  | .num _, .null => isFalse nofun
  | .num _, .bool _ => isFalse nofun
  | .num _, .str _ => isFalse nofun
  | .num _, .arr _ => isFalse nofun
  | .num _, .obj _ => isFalse nofun
  | .str _, .null => isFalse nofun
  | .str _, .bool _ => isFalse nofun
  | .str _, .num _ => isFalse nofun
  | .str _, .arr _ => isFalse nofun
  | .str _, .obj _ => isFalse nofun
  | .arr _, .null => isFalse nofun
  | .arr _, .bool _ => isFalse nofun
  | .arr _, .num _ => isFalse nofun
  | .arr _, .str _ => isFalse nofun
  | .arr _, .obj _ => isFalse nofun
  | .obj _, .null => isFalse nofun
  | .obj _, .bool _ => isFalse nofun
  | .obj _, .num _ => isFalse nofun
  | .obj _, .str _ => isFalse nofun
  | .obj _, .arr _ => isFalse nofun

/-- Decidable equality on lists of `Json`. -/
def Json.decEqList : (a b : List Json) → Decidable (a = b)
  | [], [] => isTrue rfl
  | [], _ :: _ => isFalse nofun
  | _ :: _, [] => isFalse nofun
  | x :: xs, y :: ys =>
    match Json.decEq x y with
    | isFalse h => isFalse (fun hc => h (List.cons.inj hc).1
      )
    | isTrue h1 =>
      match Json.decEqList xs ys with
      | isTrue h2 => isTrue (by rw [h1, h2])
      | isFalse h2 => isFalse (fun hc => h2 (List.cons.inj hc).2
        )

/-- Decidable equality on the member lists of `Json.obj`. -/
def Json.decEqMembers : (a b : List (Str × Json)) → Decidable (a = b)
  | [], [] => isTrue rfl
  | [], _ :: _ => isFalse nofun
  | _ :: _, [] => isFalse nofun
  | (k1, v1) :: xs, (k2, v2) :: ys =>
    if hk : k1 = k2 then
      match Json.decEq v1 v2 with
      | isFalse h => isFalse (fun hc => h (congrArg Prod.snd (List.cons.inj hc).1))
      | isTrue h1 =>
        match Json.decEqMembers xs ys with
        | isTrue h2 => isTrue (by rw [hk, h1, h2])
        | isFalse h2 => isFalse (fun hc => h2 (List.cons.inj hc).2
          )
    else isFalse (fun hc => hk (congrArg Prod.fst (List.cons.inj hc).1))
end

instance : DecidableEq Json := Json.decEq

/-- The association lists representing Python dicts decoded from JSON. -/
abbrev JDict := List (Str × Json)

/-- Python `k in d`. -/
def dictContains (m : JDict) (k : Str) : Bool := m.any (fun kv => kv.1 = k)

/-- Python `d.get(k)`, `none` meaning the key is absent. -/
def dictGet (m : JDict) (k : Str) : Option Json :=
  (m.find? (fun kv => kv.1 = k)).map (fun kv => kv.2)

/-- Python `d.get(k, default)`. -/
def dictGetD (m : JDict) (k : Str) (d : Json) : Json := (dictGet m k).getD d

/-- Python `d[k] = v`: overwrite in place if present, else append. -/
def insertKey (m : JDict) (k : Str) (v : Json) : JDict :=
  match m with
  | [] => [(k, v)]
  | (k0, v0) :: rest =>
    if k0 = k then (k0, v) :: rest else (k0, v0) :: insertKey rest k v

/-- Whitespace skipping of the `json` scanner. -/
def skipWs (cs : Str) : Str := cs.dropWhile isJsonWs

/-- ASCII decimal digit test. -/
def isDigit (c : Char) : Bool := '0' ≤ c && c ≤ '9'

/-- Value of one hex digit. -/
def hexVal (c : Char) : Option Nat :=
  let n := c.toNat
  if 48 ≤ n && n ≤ 57 then some (n - 48)
  else if 97 ≤ n && n ≤ 102 then some (n - 87)
  else if 65 ≤ n && n ≤ 70 then some (n - 55)
  else none

/-- Parse the body of a JSON string literal (after the opening quote),
returning the decoded content and the input following the closing
quote. As in Python's strict decoder, raw control characters are
rejected and the escapes are the standard JSON ones; a `\uXXXX` escape
contributes the code point through `Char.ofNat` (surrogate pairs are
not recombined here; no property below depends on non-ASCII content). -/
def parseStrBody : Nat → Str → Option (Str × Str)
  | 0, _ => none
  | _ + 1, [] => none
  | fuel + 1, c :: rest =>
    if c = '"' then some ([], rest)
    else if c = '\\' then
      match rest with
      | [] => none
      | e :: rest2 =>
        let dec : Option (Char × Str) :=
          if e = '"' then some ('"', rest2)
          else if e = '\\' then some ('\\', rest2)
          else if e = '/' then some ('/', rest2)
          else if e = 'b' then some ('\x08', rest2)
          else if e = 'f' then some ('\x0c', rest2)
          else if e = 'n' then some ('\n', rest2)
          else if e = 'r' then some ('\r', rest2)
          else if e = 't' then some ('\t', rest2)
          else if e = 'u' then
            match rest2 with
            | h1 :: h2 :: h3 :: h4 :: rest3 =>
              match hexVal h1, hexVal h2, hexVal h3, hexVal h4 with
              | some a, some b, some c3, some d =>
                some (Char.ofNat (((a * 16 + b) * 16 + c3) * 16 + d), rest3)
              | _, _, _, _ => none
            | _ => none
          else none
        match dec with
        | none => none
        | some (ch, r) =>
          match parseStrBody fuel r with
          | none => none
          | some (s, r2) => some (ch :: s, r2)
    else if c.toNat < 0x20 then none
    else
      match parseStrBody fuel rest with
      | none => none
      | some (s, r2) => some (c :: s, r2)

/-- Split a leading digit run off the input. -/
def takeDigits (cs : Str) : Str × Str := (cs.takeWhile isDigit, cs.dropWhile isDigit)

/-- Lex the optional fraction and exponent parts of a number literal,
returning their text and the rest of the input. -/
def parseFracExp (t : Str) : Str × Str :=
  let fr : Str × Str :=
    match t with
    | '.' :: u =>
      match takeDigits u with
      | ([], _) => ([], t)
      | (ds, u2) => ('.' :: ds, u2)
    | _ => ([], t)
  let t1 := fr.2
  let ex : Str × Str :=
    match t1 with
    | e :: u =>
      if e = 'e' || e = 'E' then
        let su : Str × Str :=
          match u with
          | '+' :: w => (['+'], w)
          | '-' :: w => (['-'], w)
          | _ => ([], u)
        match takeDigits su.2 with
        | ([], _) => ([], t1)
        | (ds, w2) => (e :: (su.1 ++ ds), w2)
      else ([], t1)
    | [] => ([], t1)
  (fr.1 ++ ex.1, ex.2)

/-- Lex a JSON number at the head of the input (including Python's
accepted `-Infinity`), returning its literal text and the rest. -/
def parseNumber (cs : Str) : Option (Json × Str) :=
  let sg : Str × Str :=
    match cs with
    | '-' :: t => (['-'], t)
    | _ => ([], cs)
  if sg.1 = ['-'] && (chars "Infinity").isPrefixOf sg.2 then
    some (Json.num (chars "-Infinity"), sg.2.drop 8)
  else
    match sg.2 with
    | '0' :: t =>
      let fe := parseFracExp t
      some (Json.num (sg.1 ++ '0' :: fe.1), fe.2)
    | c :: t =>
      if isDigit c then
        let ds := takeDigits t
        let fe := parseFracExp ds.2
        some (Json.num (sg.1 ++ c :: ds.1 ++ fe.1), fe.2)
      else none
    | [] => none

mutual
/-- Parse one JSON value at the head of the input (whitespace already
skipped), as Python's scanner does; also accepts the non-standard
`NaN`/`Infinity` constants Python allows by default. -/
def parseValue : Nat → Str → Option (Json × Str)
  | 0, _ => none
  | _ + 1, [] => none
  | fuel + 1, c :: rest =>
    if c = '"' then
      match parseStrBody (rest.length + 1) rest with
      | none => none
      | some (s, r) => some (Json.str s, r)
    else if c = '{' then
      match skipWs rest with
      | '}' :: r => some (Json.obj [], r)
      | r => parseMembers fuel r []
    else if c = '[' then
      match skipWs rest with
      | ']' :: r => some (Json.arr [], r)
      | r => parseElems fuel r []
    else if c = 't' then
      if (chars "rue").isPrefixOf rest then some (Json.bool true, rest.drop 3) else none
    else if c = 'f' then
      if (chars "alse").isPrefixOf rest then some (Json.bool false, rest.drop 4) else none
    else if c = 'n' then
      if (chars "ull").isPrefixOf rest then some (Json.null, rest.drop 3) else none
    else if c = 'N' then
      if (chars "aN").isPrefixOf rest then some (Json.num (chars "NaN"), rest.drop 2) else none
    else if c = 'I' then
      if (chars "nfinity").isPrefixOf rest then
        some (Json.num (chars "Infinity"), rest.drop 7)
      else none
    else parseNumber (c :: rest)

/-- Parse the members of a JSON object, starting at a key's opening
quote; `acc` holds the members decoded so far. -/
def parseMembers : Nat → Str → JDict → Option (Json × Str)
  | 0, _, _ => none
  | fuel + 1, cs, acc =>
    match cs with
    | '"' :: rest =>
      match parseStrBody (rest.length + 1) rest with
      | none => none
      | some (k, r1) =>
        match skipWs r1 with
        | ':' :: r2 =>
          match parseValue fuel (skipWs r2) with
          | none => none
          | some (v, r3) =>
            match skipWs r3 with
            | ',' :: r4 => parseMembers fuel (skipWs r4) (insertKey acc k v)
            | '}' :: r4 => some (Json.obj (insertKey acc k v), r4)
            | _ => none
        | _ => none
    | _ => none

/-- Parse the elements of a JSON array, starting at an element. -/
def parseElems : Nat → Str → List Json → Option (Json × Str)
  | 0, _, _ => none
  | fuel + 1, cs, acc =>
    match parseValue fuel cs with
    | none => none
    | some (v, r1) =>
      match skipWs r1 with
      | ',' :: r2 => parseElems fuel (skipWs r2) (acc ++ [v])
      | ']' :: r2 => some (Json.arr (acc ++ [v]), r2)
      | _ => none
end

/-- Embedding of `json.loads`: skip leading whitespace, parse one JSON
value, and require only whitespace to remain; `none` models a raised
`json.JSONDecodeError`. -/
def jsonLoads (cs : Str) : Option Json :=
  let body := skipWs cs
  match parseValue (body.length + 1) body with
  | none => none
  | some (v, rest) => if skipWs rest = [] then some v else none

/-- Hex digit character (lowercase), as Python's `%04x`. -/
def hexDigit (n : Nat) : Char :=
  if n < 10 then Char.ofNat ('0'.toNat + n) else Char.ofNat ('a'.toNat + n - 10)

/-- Four-digit hex rendering of a code unit. -/
def hex4 (n : Nat) : Str :=
  [hexDigit (n / 4096 % 16), hexDigit (n / 256 % 16), hexDigit (n / 16 % 16), hexDigit (n % 16)]

/-- Escape one character as `json.dumps` does with its default
`ensure_ascii=True`: printable ASCII passes through, the named escapes
are used where they exist, anything else becomes `\uXXXX` (a code
point above U+FFFF becomes a surrogate pair). -/
def escChar (c : Char) : Str :=
  if c = '"' then ['\\', '"']
  else if c = '\\' then ['\\', '\\']
  else if c = '\n' then ['\\', 'n']
  else if c = '\r' then ['\\', 'r']
  else if c = '\t' then ['\\', 't']
  else if c = '\x08' then ['\\', 'b']
  else if c = '\x0c' then ['\\', 'f']
  else if 0x20 ≤ c.toNat && c.toNat ≤ 0x7e then [c]
  else if c.toNat < 0x10000 then '\\' :: 'u' :: hex4 c.toNat
  else
    '\\' :: 'u' :: hex4 (0xd800 + (c.toNat - 0x10000) / 0x400)
      ++ '\\' :: 'u' :: hex4 (0xdc00 + (c.toNat - 0x10000) % 0x400)

/-- A JSON string literal for `s`. -/
def dumpStr (s : Str) : Str := '"' :: (s.map escChar).flatten ++ ['"']

mutual
/-- `json.dumps(value)` with its default separators `", "` and `": "`. -/
def dumps : Json → Str
  | .null => chars "null"
  | .bool b => if b then chars "true" else chars "false"
  | .num l => l
  | .str s => dumpStr s
  | .arr [] => ['[', ']']
  | .arr (x :: xs) => '[' :: (dumps x ++ dumpsArrTail xs)
  | .obj [] => ['{', '}']
  | .obj ((k, v) :: ms) =>
    '{' :: (dumpStr k ++ ':' :: ' ' :: (dumps v ++ dumpsObjTail ms))
termination_by structural v => v

/-- Remaining elements of an array being dumped. -/
def dumpsArrTail : List Json → Str
  | [] => [']']
  | x :: xs => ',' :: ' ' :: (dumps x ++ dumpsArrTail xs)
termination_by structural v => v

/-- Remaining members of an object being dumped. -/
def dumpsObjTail : List (Str × Json) → Str
  | [] => ['}']
  | (k, v) :: ms => ',' :: ' ' :: (dumpStr k ++ ':' :: ' ' :: (dumps v ++ dumpsObjTail ms))
termination_by structural v => v
end

/-- A run of `n` spaces. -/
def nspaces (n : Nat) : Str := List.replicate n ' '

mutual
/-- `json.dumps(value, indent=2)` at indentation level `ind` (used by
`_filter_response` for the small-size threshold): items separated by
`",\n"` plus indentation, key separator `": "`. -/
def dumpsInd : Nat → Json → Str
  | _, .null => chars "null"
  | _, .bool b => if b then chars "true" else chars "false"
  | _, .num l => l
  | _, .str s => dumpStr s
  | _, .arr [] => ['[', ']']
  | ind, .arr (x :: xs) =>
    '[' :: '\n' :: (nspaces (ind + 2) ++ dumpsInd (ind + 2) x ++ dumpsIndArrTail ind xs)
  | _, .obj [] => ['{', '}']
  | ind, .obj ((k, v) :: ms) =>
    '{' :: '\n' :: (nspaces (ind + 2) ++ dumpStr k ++ ':' :: ' ' ::
      (dumpsInd (ind + 2) v ++ dumpsIndObjTail ind ms))
termination_by structural _ v => v

/-- Remaining elements of an array being dumped with indentation. -/
def dumpsIndArrTail : Nat → List Json → Str
  | ind, [] => '\n' :: (nspaces ind ++ [']'])
  | ind, x :: xs =>
    ',' :: '\n' :: (nspaces (ind + 2) ++ dumpsInd (ind + 2) x ++ dumpsIndArrTail ind xs)
termination_by structural _ v => v

/-- Remaining members of an object being dumped with indentation. -/
def dumpsIndObjTail : Nat → List (Str × Json) → Str
  | ind, [] => '\n' :: (nspaces ind ++ ['}'])
  | ind, (k, v) :: ms =>
    ',' :: '\n' :: (nspaces (ind + 2) ++ dumpStr k ++ ':' :: ' ' ::
      (dumpsInd (ind + 2) v ++ dumpsIndObjTail ind ms))
termination_by structural _ v => v
end

/-- `json.dumps(value, indent=2)`. -/
def dumpsIndent2 (v : Json) : Str := dumpsInd 0 v

/-- Python `repr` of a decoded string: quote choice and the basic
escapes (control characters become `\xNN`; exotic cases that no
property below exercises are approximated). -/
def pyReprStr (s : Str) : Str :=
  let q : Char := if s.contains '\'' && !(s.contains '"') then '"' else '\''
  let esc := fun (c : Char) =>
    if c = q || c = '\\' then ['\\', c]
    else if c = '\n' then ['\\', 'n']
    else if c = '\r' then ['\\', 'r']
    else if c = '\t' then ['\\', 't']
    else if c.toNat < 0x20 || c.toNat = 0x7f then
      ['\\', 'x', hexDigit (c.toNat / 16), hexDigit (c.toNat % 16)]
    else [c]
  q :: (s.map esc).flatten ++ [q]

mutual
/-- Python `repr` of a decoded JSON value (`None`, `True`/`False`,
quoted strings, list and dict displays); numeric values print their
JSON literal text, which matches Python on plain integer and decimal
literals. -/
def pyRepr : Json → Str
  | .null => chars "None"
  | .bool b => if b then chars "True" else chars "False"
  | .num l => l
  | .str s => pyReprStr s
  | .arr [] => ['[', ']']
  | .arr (x :: xs) => '[' :: (pyRepr x ++ pyReprArrTail xs)
  | .obj [] => ['{', '}']
  | .obj ((k, v) :: ms) =>
    '{' :: (pyReprStr k ++ ':' :: ' ' :: (pyRepr v ++ pyReprObjTail ms))
termination_by structural v => v

/-- Remaining elements of a list display. -/
def pyReprArrTail : List Json → Str
  | [] => [']']
  | x :: xs => ',' :: ' ' :: (pyRepr x ++ pyReprArrTail xs)
termination_by structural v => v

/-- Remaining members of a dict display. -/
def pyReprObjTail : List (Str × Json) → Str
  | [] => ['}']
  | (k, v) :: ms => ',' :: ' ' :: (pyReprStr k ++ ':' :: ' ' :: (pyRepr v ++ pyReprObjTail ms))
termination_by structural v => v
end

/-- Python `str()` of a decoded JSON value, as used in f-strings and in
`str(raw_result)`: a string passes through bare, anything else prints
as its `repr`. -/
def pyStr : Json → Str
  | .str s => s
  | .null => chars "None"
  | .bool b => if b then chars "True" else chars "False"
  | .num l => l
  | .arr xs => pyRepr (.arr xs)
  | .obj ms => pyRepr (.obj ms)

/-- The key `"tool"`. -/
def toolKey : Str := chars "tool"

/-- Lines 234-238 of `_parse_tool_request`: strip reasoning traces,
strip the two code-fence patterns (first the `json`-tagged one, then
the bare one), then Python `strip()`. -/
def cleanResponse (response : Str) : Str :=
  pyStrip (subPatWs '`' (chars "``") (subPatWs '`' (chars "``json") (stripThink response)))

/-- The depth-counting scan of `extract_json_object`, already inside
the object: `acc` holds the characters seen so far in reverse. The
depth starts at 1 (the opening brace is consumed by the caller) and
the scan returns when it falls back to zero; running out of input at
positive depth returns `none` as the Python loop falls through. -/
def scanBalanced : Nat → Str → Str → Option Str
  | _, _, [] => none
  | depth, acc, c :: rest =>
    if c = '{' then scanBalanced (depth + 1) (c :: acc) rest
    else if c = '}' then
      if depth = 1 then some (c :: acc).reverse
      else scanBalanced (depth - 1) (c :: acc) rest
    else scanBalanced depth (c :: acc) rest

/-- `extract_json_object` (lines 251-263): find the first `\x7b`, then
track brace depth character by character to the matching `\x7d`. -/
def extract_json_object (text : Str) : Option Str :=
  match text.dropWhile (fun c => !(c = '{')) with
  | [] => none
  | c :: rest => scanBalanced 1 [c] rest

/-- Outcome of one `try: parsed = json.loads(...)` block inside
`_parse_tool_request`: `ret r` models reaching a `return` statement
with value `r`; `fallthrough` models continuing past the block (parse
error, non-dict result, or missing `tool` key). -/
inductive TryOutcome where
  | ret (r : Option JDict)
  | fallthrough
deriving DecidableEq

/-- One parse attempt of `_parse_tool_request` (lines 241-247, repeated
at 267-274): load as JSON; if the result is a dict containing `tool`,
return `None` when the value is JSON null or the string `"null"` and
the dict itself otherwise; anything else falls through. -/
def tryToolDict (cs : Str) : TryOutcome :=
  match jsonLoads cs with
  | some (Json.obj m) =>
    if dictContains m toolKey then
      if dictGet m toolKey = some Json.null || dictGet m toolKey = some (Json.str (chars "null"))
      then .ret none
      else .ret (some m)
    else .fallthrough
  | _ => .fallthrough

/-- `LEAPOrchestrator._parse_tool_request`: `none` models returning
`None` (which covers both the finish signal and parse failure), `some
m` models returning the parsed dict as the tool request. -/
def parse_tool_request (response : Str) : Option JDict :=
  let r := cleanResponse response
  match tryToolDict r with
  | .ret o => o
  | .fallthrough =>
    match extract_json_object r with
    | none => none
    | some js =>
      match tryToolDict js with
      | .ret o => o
      | .fallthrough => none

/-- Configuration fields of `LEAPConfig` that the orchestrator
branches on (`verbose` only affects printing and `warmup_models` only
the constructor, so they are omitted). -/
structure Config where
  enable_filtering : Bool
deriving DecidableEq

/-- `OrchestrationMetrics`: times are wall-clock durations in abstract
units taken from the duration oracle; `token_reduction` is the float
percentage, modelled as a rational. -/
structure Metrics where
  phase1_time : Nat
  phase2_time : Nat
  phase3_time : Nat
  total_time : Nat
  tool_name : Json
  raw_response_tokens : Nat
  filtered_response_tokens : Nat
  token_reduction : Rat
deriving DecidableEq

/-- The dataclass defaults of `OrchestrationMetrics`. -/
def initMetrics : Metrics :=
  { phase1_time := 0, phase2_time := 0, phase3_time := 0, total_time := 0
    tool_name := Json.str [], raw_response_tokens := 0
    filtered_response_tokens := 0, token_reduction := 0 }

/-- The external world during a run: `gen k` is the outcome of the
`k`-th `OllamaInference.generate` call of this orchestrator
(`Except.error` modelling a raised exception inside the backend,
whatever the model and prompt were), and `dur k` is the `k`-th
measured phase duration. Quantifying over `Env` quantifies over every
behavior of the planning and execution models. -/
structure Env where
  gen : Nat → Except Str Str
  dur : Nat → Nat

/-- Mutable orchestrator state threaded through a run: the generate
call counter, the duration measurement counter, `self.metrics` and
`self.state_summary`. -/
structure St where
  genIdx : Nat
  durIdx : Nat
  metrics : Metrics
  summary : Str
deriving DecidableEq

/-- A fresh orchestrator's state. -/
def initSt : St := { genIdx := 0, durIdx := 0, metrics := initMetrics, summary := [] }

/-- Errors that can propagate out of `run`: `backend` is the
`RuntimeError` re-raised by `OllamaInference.generate`; `typeError` is
the `TypeError` raised by hashing an unhashable value (a list or dict
used as a tool name or filter field). -/
inductive RunErr where
  | backend (msg : Str)
  | typeError
deriving DecidableEq

/-- `OllamaInference.generate`: consult the oracle and advance the
call counter; a backend failure is re-raised as
`RuntimeError("Ollama inference failed: ...")`. Errors carry the state
at the raise so that the surviving metrics can be observed. -/
def generate (env : Env) (st : St) : Except (RunErr × St) (Str × St) :=
  match env.gen st.genIdx with
  | .error e => .error (.backend (chars "Ollama inference failed: " ++ e), st)
  | .ok t => .ok (t, { st with genIdx := st.genIdx + 1 })

/-- Measure one phase duration from the oracle and consume its index
(the difference of the two `time.time()` calls around a phase). -/
def tick (env : Env) (st : St) : Nat × St :=
  (env.dur st.durIdx, { st with durIdx := st.durIdx + 1 })

/-- Whether a number literal denotes zero (so that its float is falsy). -/
def numIsZero (l : Str) : Bool :=
  let noSign := match l with
    | '-' :: t => t
    | t => t
  (noSign.takeWhile (fun c => !(c = 'e' || c = 'E'))).all (fun c => c = '0' || c = '.')

/-- Python truthiness of a decoded JSON value. -/
def jsonTruthy : Json → Bool
  | .null => false
  | .bool b => b
  | .num l => !(numIsZero l)
  | .str s => !(s.isEmpty)
  | .arr xs => !(xs.isEmpty)
  | .obj ms => !(ms.isEmpty)

/-- `re.search(r'[\{\[].*[\}\]]', text, re.DOTALL)` of the filter:
the leftmost possible start is the first opening bracket after which a
closing bracket still occurs, and the greedy `.*` extends the match to
the last closing bracket of the text; no closing bracket strictly
after the first opening bracket means no match at all. -/
def regexSearchJson (cs : Str) : Option Str :=
  match cs.dropWhile (fun c => !(c = '{' || c = '[')) with
  | [] => none
  | c :: tl =>
    let kept := (tl.reverse.dropWhile (fun c => !(c = '}' || c = ']'))).reverse
    if kept.isEmpty then none else some (c :: kept)

/-- Python iteration over the `filter` value in the fallback loop
`for field in filter_fields`: lists iterate their elements, strings
their characters, dicts their keys; iterating a number, boolean or
`None` raises `TypeError`. -/
def fieldElems : Json → Except RunErr (List Json)
  | .arr xs => .ok xs
  | .str s => .ok (s.map (fun c => Json.str [c]))
  | .obj ms => .ok (ms.map (fun kv => Json.str kv.1))
  | _ => .error .typeError

/-- The deterministic fallback of `_filter_response` (lines 374-377):
keep just the requested fields present in the raw result, in request
order. A hashable non-string field is simply not a key of the dict; an
unhashable one (list or dict) raises `TypeError` from
`field in raw_result`. -/
def selectFields (kvs : JDict) : List Json → JDict → Except RunErr JDict
  | [], acc => .ok acc
  | f :: rest, acc =>
    match f with
    | .arr _ => .error .typeError
    | .obj _ => .error .typeError
    | .str k =>
      if dictContains kvs k then
        selectFields kvs rest (insertKey acc k (dictGetD kvs k Json.null))
      else selectFields kvs rest acc
    | _ => selectFields kvs rest acc

/-- Lines 363-378 of `_filter_response`, after the execution model
replied: parse the reply for the first bracketed span and return the
loaded JSON verbatim on success; on parse failure fall back to
`selectFields`, returning the raw mapping when that selection is
empty. -/
def filter_model_path (st1 : St) (kvs : JDict) (ffields : Json) (resp : Str) :
    Except (RunErr × St) (Json × St) :=
  match (regexSearchJson (stripThink resp)).bind (fun mt => jsonLoads mt) with
  | some v => .ok (v, st1)
  | none =>
    match fieldElems ffields with
    | .error e => .error (e, st1)
    | .ok fs =>
      match selectFields kvs fs [] with
      | .error e => .error (e, st1)
      | .ok sel => .ok (if sel.isEmpty then Json.obj kvs else .obj sel, st1)

/-- `LEAPOrchestrator._filter_response` (see the doc comment above
`filter_model_path` for its model-path tail). -/
def filter_response (env : Env) (st : St) (raw : Json) (ffields : Json) :
    Except (RunErr × St) (Json × St) :=
  match raw with
  | .str s => .ok (.obj [(chars "content", .str (s.take 1000))], st)
  | .obj kvs =>
    if (dumpsIndent2 raw).length < 500 then .ok (raw, st)
    else
      match generate env st with
      | .error e => .error e
      | .ok (resp, st1) => filter_model_path st1 kvs ffields resp
  | _ => .ok (.obj [(chars "result", .str ((pyStr raw).take 1000))], st)

/-- A tool implementation: receives the decoded `params` value and
returns a result; `Except.error msg` models a raised exception with
`str(e) = msg` (this also covers `tool_func(**params)` itself raising
for non-mapping params, which happens inside the `try`). -/
abbrev ToolFn := Json → Except Str Json

/-- The tool registry `self.tools`. -/
abbrev Registry := List (Str × ToolFn)

/-- Registry lookup (`self.tools[name]`). -/
def lookupTool (reg : Registry) (k : Str) : Option ToolFn :=
  (reg.find? (fun kv => kv.1 = k)).map (fun kv => kv.2)

/-- Lines 322-331 of `_phase2_execution`: serialize the filtered
result (`json.dumps` for dicts, `str` otherwise), record its token
estimate, and derive the reduction percentage when the raw estimate
was positive. -/
def phase2_finish (st2 : St) (filtered : Json) : Str × St :=
  let filtered_json := match filtered with
    | .obj _ => dumps filtered
    | _ => pyStr filtered
  let m2 : Metrics := { st2.metrics with filtered_response_tokens := filtered_json.length / 4 }
  let m3 : Metrics := if 0 < m2.raw_response_tokens then
      { m2 with token_reduction :=
          (1 - (m2.filtered_response_tokens : Rat) / (m2.raw_response_tokens : Rat)) * 100 }
    else m2
  (filtered_json, { st2 with metrics := m3 })

/-- Lines 316-320 plus 322-331 of `_phase2_execution`: filter the raw
result through the subagent when filtering is enabled and fields were
requested, then serialize and account. -/
def phase2_filter_branch (cfg : Config) (env : Env) (st1 : St) (raw ffields : Json) :
    Except (RunErr × St) (Str × St) :=
  match (if cfg.enable_filtering && jsonTruthy ffields
         then filter_response env st1 raw ffields
         else .ok (raw, st1)) with
  | .error e => .error e
  | .ok (filtered, st2) => .ok (phase2_finish st2 filtered)

/-- `LEAPOrchestrator._phase2_execution`: read `tool`/`params`/`filter`
from the request dict, record the tool name in the metrics, answer
unknown tools and raising tools with an `error` payload, otherwise
serialize the (optionally filtered) result and update the token
metrics. A list- or dict-valued tool name raises `TypeError` in
`tool_name not in self.tools`, outside the `try`. -/
def phase2_execution (cfg : Config) (env : Env) (reg : Registry) (st : St) (m : JDict) :
    Except (RunErr × St) (Str × St) :=
  let tool_name := dictGetD m toolKey Json.null
  let params := dictGetD m (chars "params") (Json.obj [])
  let ffields := dictGetD m (chars "filter") (Json.arr [])
  let st0 := { st with metrics := { st.metrics with tool_name := tool_name } }
  match tool_name with
  | .arr _ => .error (.typeError, st0)
  | .obj _ => .error (.typeError, st0)
  | _ =>
    let fn? := match tool_name with
      | .str s => lookupTool reg s
      | _ => none
    match fn? with
    | none =>
      .ok (dumps (.obj [(chars "error", .str (chars "Unknown tool: " ++ pyStr tool_name))]), st0)
    | some fn =>
      match fn params with
      | .error emsg => .ok (dumps (.obj [(chars "error", .str emsg)]), st0)
      | .ok raw =>
        let raw_json := match raw with
          | .obj _ => dumps raw
          | _ => pyStr raw
        let st1 : St := { st0 with metrics :=
          { st0.metrics with raw_response_tokens := raw_json.length / 4 } }
        phase2_filter_branch cfg env st1 raw ffields

/-- `LEAPOrchestrator._phase3_update_state`: one generate call, then
`self.state_summary = re.sub(r'<think>.*?</think>', '', response,
flags=re.DOTALL).strip()`. -/
def phase3_update_state (env : Env) (st : St) : Except (RunErr × St) St :=
  match generate env st with
  | .error e => .error e
  | .ok (resp, st1) => .ok { st1 with summary := pyStrip (stripThink resp) }

/-- `LEAPOrchestrator._direct_response`: one generate call, cleaned of
reasoning traces and outer whitespace, retried once at a higher
temperature when empty or under ten characters; the retry's cleaned
text is returned regardless of its length. -/
def direct_response (env : Env) (st : St) : Except (RunErr × St) (Str × St) :=
  match generate env st with
  | .error e => .error e
  | .ok (r0, st1) =>
    let resp := pyStrip (stripThink r0)
    if resp.length < 10 then
      match generate env st1 with
      | .error e => .error e
      | .ok (r1, st2) => .ok (pyStrip (stripThink r1), st2)
    else .ok (resp, st1)

/-- `LEAPOrchestrator._generate_final_answer`: a single generate call
whose text is returned as is. -/
def generate_final_answer (env : Env) (st : St) : Except (RunErr × St) (Str × St) :=
  generate env st

/-- How a `run` that returned (rather than raised) ended: first-turn
finish signal (`_direct_response`), later finish signal, or turn
limit exhaustion (both of the latter via `_generate_final_answer`). -/
inductive Outcome where
  | direct (ans : Str)
  | finishSignal (ans : Str)
  | exhausted (ans : Str)
deriving DecidableEq

/-- Decidable equality for `Except` values (not provided by core). -/
def exceptDecEq {ε α : Type} [DecidableEq ε] [DecidableEq α] : DecidableEq (Except ε α)
  | .error a, .error b =>
    if h : a = b then isTrue (by rw [h]) else isFalse (fun hc => h (Except.error.inj hc))
  | .ok a, .ok b =>
    if h : a = b then isTrue (by rw [h]) else isFalse (fun hc => h (Except.ok.inj hc))
  | .error _, .ok _ => isFalse nofun
  | .ok _, .error _ => isFalse nofun

instance {ε α : Type} [DecidableEq ε] [DecidableEq α] : DecidableEq (Except ε α) :=
  exceptDecEq

/-- Result of `run`: the returned text or the propagated error, the
final object state, the number of planning calls performed, and the
value of `current_turn` at entry to each loop iteration. -/
structure RunResult where
  outcome : Except RunErr Outcome
  st : St
  planningCalls : Nat
  turnTrace : List Nat
deriving DecidableEq

/-- Leaving the loop: `_generate_final_answer` and return. -/
def finishRun (env : Env) (st : St) (pcalls : Nat) (trace : List Nat)
    (tag : Str → Outcome) : RunResult :=
  match generate_final_answer env st with
  | .error (e, stE) => ⟨.error e, stE, pcalls, trace⟩
  | .ok (ans, st1) => ⟨.ok (tag ans), st1, pcalls, trace⟩

/-- The `self.metrics.phase1_time += time.time() - phase1_start`
update after a successful planning generate. -/
def addPhase1Time (env : Env) (st1 : St) : St :=
  let d := tick env st1
  { d.2 with metrics := { d.2.metrics with phase1_time := d.2.metrics.phase1_time + d.1 } }

/-- Lines 106-112 of `run`: no tool was selected — first turn answers
directly, any later turn breaks out to the final answer. -/
def loopFinishBranch (env : Env) (st2 : St) (turn pcalls : Nat) (trace1 : List Nat) :
    RunResult :=
  if turn = 1 then
    match direct_response env st2 with
    | .error (e, stE) => ⟨.error e, stE, pcalls, trace1⟩
    | .ok (ans, st3) => ⟨.ok (.direct ans), st3, pcalls, trace1⟩
  else finishRun env st2 pcalls trace1 .finishSignal

/-- Lines 117-130 of `run`: timed phase 2 execution followed by the
timed phase 3 state update, producing the state for the next turn. -/
def loopPhases23 (cfg : Config) (env : Env) (reg : Registry) (st2 : St) (m : JDict) :
    Except (RunErr × St) St :=
  match phase2_execution cfg env reg st2 m with
  | .error e => .error e
  | .ok (_, st3) =>
    let d2 := tick env st3
    let st4 := { d2.2 with metrics :=
      { d2.2.metrics with phase2_time := d2.2.metrics.phase2_time + d2.1 } }
    match phase3_update_state env st4 with
    | .error e => .error e
    | .ok st5 =>
      let d3 := tick env st5
      .ok { d3.2 with metrics :=
        { d3.2.metrics with phase3_time := d3.2.metrics.phase3_time + d3.1 } }

/-- The turn loop of `run` (lines 93-141). Each iteration: the
`current_turn <= max_turns` test, one timed planning phase (generate
plus `_parse_tool_request`), then either the first-turn direct
response, the later-turn break to the final answer, or timed phase 2
and phase 3 and the next turn. Recursion is on a fuel that the wrapper
sets to `maxTurns`, so `fuel = maxTurns + 1 - turn` throughout and the
zero-fuel arm coincides with the failing loop test. -/
def runLoop (cfg : Config) (env : Env) (reg : Registry) (maxTurns : Nat) :
    Nat → Nat → St → Nat → List Nat → RunResult
  | 0, _, st, pcalls, trace => finishRun env st pcalls trace .exhausted
  | fuel + 1, turn, st, pcalls, trace =>
    if turn ≤ maxTurns then
      let trace1 := trace ++ [turn]
      match generate env st with
      | .error (e, stE) => ⟨.error e, stE, pcalls + 1, trace1⟩
      | .ok (resp, st1) =>
        let st2 := addPhase1Time env st1
        match parse_tool_request resp with
        | none => loopFinishBranch env st2 turn (pcalls + 1) trace1
        | some m =>
          match loopPhases23 cfg env reg st2 m with
          | .error (e, stE) => ⟨.error e, stE, pcalls + 1, trace1⟩
          | .ok st6 => runLoop cfg env reg maxTurns fuel (turn + 1) st6 (pcalls + 1) trace1
    else finishRun env st pcalls trace .exhausted

/-- `LEAPOrchestrator.run(query, max_turns)`: reset the rolling
summary and enter the loop at turn 1. The query text only feeds
prompts, which the generation oracle abstracts over, so it does not
otherwise appear; note that no validation of `query` or `maxTurns`
happens here, exactly as in the source. -/
def run (cfg : Config) (env : Env) (reg : Registry) (query : Str) (maxTurns : Nat)
    (st : St) : RunResult :=
  runLoop cfg env reg maxTurns maxTurns 1
    { st with summary := chars "No actions taken yet." } 0 []

/-- The flat record returned by `LEAPOrchestrator.get_metrics` (the
reduction percentage is kept as a number rather than a formatted
string). -/
structure MetricsReport where
  phase1_time : Nat
  phase2_time : Nat
  phase3_time : Nat
  total_time : Nat
  tool : Json
  raw_tokens : Nat
  filtered_tokens : Nat
  token_reduction : Rat
deriving DecidableEq

/-- `LEAPOrchestrator.get_metrics`. -/
def get_metrics (m : Metrics) : MetricsReport :=
  { phase1_time := m.phase1_time, phase2_time := m.phase2_time
    phase3_time := m.phase3_time, total_time := m.total_time
    tool := m.tool_name, raw_tokens := m.raw_response_tokens
    filtered_tokens := m.filtered_response_tokens
    token_reduction := m.token_reduction }

/-- A sequence of `run` calls on one orchestrator object (queries
paired with their `max_turns`), returning the final object state. -/
def runSeq (cfg : Config) (env : Env) (reg : Registry) : List (Str × Nat) → St → St
  | [], st => st
  | (q, n) :: rest, st => runSeq cfg env reg rest (run cfg env reg q n st).st

theorem dictContains_of_dictGet {m : JDict} {k : Str} {v : Json}
    (h : dictGet m k = some v) : dictContains m k = true := by
  unfold dictGet at h
  unfold dictContains
  match hf : m.find? (fun kv => kv.1 = k) with
  | none => rw [hf] at h; simp at h
  | some kv =>
    have := List.find?_some hf
    have hmem := List.mem_of_find?_eq_some hf
    exact List.any_eq_true.mpr ⟨kv, hmem, this⟩

/-- C2 (amended): for every raw text whose cleaned form loads as a
JSON mapping with a `tool` key valued JSON null or the literal string
`"null"`, the parser returns the finish signal (`None`). An
empty-string tool value is not a finish signal (see the
counterexample): the code only tests `is None` and `== 'null'`, so
`\x7b"tool": ""\x7d` comes back as a tool request with an empty name. -/
theorem c2_null_tool_finishes (raw : Str) (m : JDict)
    (hload : jsonLoads (cleanResponse raw) = some (Json.obj m))
    (htool : dictGet m toolKey = some Json.null ∨
             dictGet m toolKey = some (Json.str (chars "null"))) :
    parse_tool_request raw = none := by
  have hcontains : dictContains m toolKey = true := by
    cases htool with
    | inl h => exact dictContains_of_dictGet h
    | inr h => exact dictContains_of_dictGet h
  have hcond : (dictGet m toolKey = some Json.null ||
      dictGet m toolKey = some (Json.str (chars "null"))) = true := by
    cases htool with
    | inl h => simp [h]
    | inr h => simp [h]
  have hret : tryToolDict (cleanResponse raw) = .ret none := by
    unfold tryToolDict
    rw [hload]
    simp only [hcontains, if_true]
    simp only [hcond, if_true]
  simp only [parse_tool_request, hret]

/-- C2 witness: the well-formed finish inputs from the claim. -/
theorem c2_witness :
    parse_tool_request (chars "\x7b\"tool\": null\x7d") = none ∧
    parse_tool_request (chars "\x7b\"tool\": \"null\"\x7d") = none :=
  ⟨c2_null_tool_finishes _ [(toolKey, Json.null)] (by decide) (Or.inl (by decide)),
   c2_null_tool_finishes _ [(toolKey, Json.str (chars "null"))] (by decide)
     (Or.inr (by decide))⟩

/-- C2 counterexample: a mapping whose `tool` value is the empty
string does not produce the finish signal; the parser returns it as a
tool request (with empty tool name), contradicting the claim that an
empty-string value yields FinishSignal. -/
theorem c2_counterexample :
    parse_tool_request (chars "\x7b\"tool\": \"\"\x7d") = some [(toolKey, Json.str [])] ∧
    parse_tool_request (chars "\x7b\"tool\": \"\"\x7d") ≠ none := by
  constructor
  · decide
  · decide

/-- C7 counterexample: the well-formed finish signal and unparseable
text map to the very same value `none`; `_parse_tool_request` returns
`Optional[dict]` and does not distinguish FinishSignal from
ParseFailure. -/
theorem c7_counterexample :
    parse_tool_request (chars "\x7b\"tool\": null\x7d") =
      parse_tool_request (chars "there is no recoverable json text here") ∧
    parse_tool_request (chars "\x7b\"tool\": null\x7d") = none := by
  constructor
  · decide
  · decide

/-- C7 (amended): the parser's result type distinguishes exactly two
outcomes, `some dict` (a tool request) versus `none`; the finish
signal and parse failure are conflated into `none`, which the
orchestrator treats as a finish signal. -/
theorem c7_two_outcomes :
    parse_tool_request (chars "\x7b\"tool\": null\x7d") = none ∧
    parse_tool_request (chars "there is no recoverable json text here") = none ∧
    parse_tool_request (chars "\x7b\"tool\": \"web_search\"\x7d") =
      some [(toolKey, Json.str (chars "web_search"))] := by
  refine ⟨by decide, by decide, by decide⟩

/-- Whether the lazy `<think>...</think>` pattern matches anywhere in
`cs`: an opening marker with some closing marker after it. -/
def hasThinkMatch (cs : Str) : Bool :=
  match splitFirst thinkOpen cs with
  | none => false
  | some (_, rest) => occurs thinkClose rest

theorem stripThink_eq_self_of_no_match {cs : Str} (h : hasThinkMatch cs = false) :
    stripThink cs = cs := by
  unfold hasThinkMatch at h
  unfold stripThink stripThinkFuel
  match ho : splitFirst thinkOpen cs with
  | none => rfl
  | some (pre, rest) =>
    rw [ho] at h
    unfold occurs at h
    match hc : splitFirst thinkClose rest with
    | none => simp [hc]
    | some (mid, tl) => simp [hc] at h

/-- C8 (amended): trace stripping is idempotent on every input whose
once-stripped text contains no matched marker pair. In general one
strip is not idempotent: removing a span can splice the surrounding
characters into a fresh `<think>...</think>` pair that only the next
pass removes (see the counterexample). -/
theorem c8_strip_idempotent_of_no_match (cs : Str)
    (h : hasThinkMatch (stripThink cs) = false) :
    stripThink (stripThink cs) = stripThink cs :=
  stripThink_eq_self_of_no_match h

/-- C8 witness: a concrete input whose stripped form is marker-free. -/
theorem c8_witness :
    hasThinkMatch (stripThink (chars "<think>plan</think>done")) = false ∧
    stripThink (stripThink (chars "<think>plan</think>done"))
      = stripThink (chars "<think>plan</think>done") :=
  ⟨by decide, c8_strip_idempotent_of_no_match _ (by decide)⟩

/-- C8 counterexample: stripping twice differs from stripping once.
Removing the inner `<think>x</think>` from this text splices the
leftover `<thi` and `nk>abc</think>` into a new matched pair, so the
first pass returns `<think>abc</think>` and a second pass strips it
to the empty string. -/
theorem c8_counterexample :
    stripThink (stripThink (chars "<thi<think>x</think>nk>abc</think>"))
      ≠ stripThink (chars "<thi<think>x</think>nk>abc</think>") := by
  decide

/-- C6: a mapping result whose `indent=2` serialization is under the
500-character threshold is returned unchanged by `_filter_response`,
with the state untouched — in particular the generate-call counter is
unchanged, so the execution model is not invoked — regardless of the
requested fields. -/
theorem c6_small_result_passthrough (env : Env) (st : St) (kvs : JDict) (ffields : Json)
    (h : (dumpsIndent2 (Json.obj kvs)).length < 500) :
    filter_response env st (Json.obj kvs) ffields = .ok (Json.obj kvs, st) := by
  unfold filter_response
  simp [h]

/-- C6 witness: a small concrete payload passes through for a
nonempty requested-field list. -/
theorem c6_witness :
    (dumpsIndent2 (Json.obj [(chars "result", Json.num (chars "37.5"))])).length < 500 ∧
    filter_response ⟨fun _ => .ok [], fun _ => 0⟩ initSt
        (Json.obj [(chars "result", Json.num (chars "37.5"))])
        (Json.arr [Json.str (chars "result")])
      = .ok (Json.obj [(chars "result", Json.num (chars "37.5"))], initSt) :=
  ⟨by decide, c6_small_result_passthrough _ _ _ _ (by decide)⟩

theorem dictContains_nil (k : Str) : dictContains ([] : JDict) k = false := by
  simp [dictContains]

theorem dictContains_cons (k0 : Str) (v0 : Json) (m : JDict) (k : Str) :
    dictContains ((k0, v0) :: m) k = true ↔ (k0 = k ∨ dictContains m k = true) := by
  simp [dictContains]

theorem dictContains_insertKey (m : JDict) (k : Str) (v : Json) (k' : Str) :
    dictContains (insertKey m k v) k' = true ↔
      (dictContains m k' = true ∨ k' = k) := by
  induction m with
  | nil =>
    simp [insertKey, dictContains]
    exact eq_comm
  | cons kv rest ih =>
    obtain ⟨k0, v0⟩ := kv
    by_cases h0 : k0 = k
    · subst h0
      simp [insertKey, dictContains]
      tauto
    · simp [insertKey, h0, dictContains] at ih ⊢
      tauto

/-- Characterization of the fallback selection on string fields: it
never raises, and a key is selected exactly when it is among the
requested fields and present in the raw result (or already in the
accumulator). -/
theorem selectFields_spec (kvs : JDict) :
    ∀ (fields : List Str) (acc : JDict),
      ∃ sel : JDict, selectFields kvs (fields.map Json.str) acc = .ok sel ∧
        (∀ k, dictContains sel k = true ↔
          (dictContains acc k = true ∨ (k ∈ fields ∧ dictContains kvs k = true))) := by
  intro fields
  induction fields with
  | nil =>
    intro acc
    refine ⟨acc, rfl, ?_⟩
    intro k
    simp
  | cons f fs ih =>
    intro acc
    by_cases hf : dictContains kvs f = true
    · obtain ⟨sel, hrun, hiff⟩ := ih (insertKey acc f (dictGetD kvs f Json.null))
      refine ⟨sel, ?_, ?_⟩
      · simp only [List.map_cons, selectFields, hf, if_true]
        exact hrun
      · intro k
        rw [hiff k, dictContains_insertKey]
        constructor
        · rintro ((h | rfl) | ⟨hm, hc⟩)
          · exact Or.inl h
          · exact Or.inr ⟨List.mem_cons_self _ _, hf⟩
          · exact Or.inr ⟨List.mem_cons_of_mem _ hm, hc⟩
        · rintro (h | ⟨hm, hc⟩)
          · exact Or.inl (Or.inl h)
          · rcases List.mem_cons.mp hm with rfl | hm'
            · exact Or.inl (Or.inr rfl)
            · exact Or.inr ⟨hm', hc⟩
    · obtain ⟨sel, hrun, hiff⟩ := ih acc
      refine ⟨sel, ?_, ?_⟩
      · simp only [List.map_cons, selectFields, hf, if_false]
        exact hrun
      · intro k
        rw [hiff k]
        constructor
        · rintro (h | ⟨hm, hc⟩)
          · exact Or.inl h
          · exact Or.inr ⟨List.mem_cons_of_mem _ hm, hc⟩
        · rintro (h | ⟨hm, hc⟩)
          · exact Or.inl h
          · rcases List.mem_cons.mp hm with rfl | hm'
            · exact absurd hc hf
            · exact Or.inr ⟨hm', hc⟩

/-- C5: when the model-based filter path fails to parse — the
sub-model's reply (after trace stripping) has no bracketed span or the
span is not JSON — the fallback preserves data: if some requested
field is a key of the raw mapping, the result is a nonempty mapping
whose keys are exactly the requested fields present in the raw result
(hence a subset of its keys); if none is, the raw result is returned
unmodified. The serialized size must be at least the 500-character
threshold for the model path to run at all. -/
theorem c5_fallback_preserves_data (env : Env) (st : St) (kvs : JDict)
    (fields : List Str) (reply : Str)
    (hbig : ¬ (dumpsIndent2 (Json.obj kvs)).length < 500)
    (hgen : env.gen st.genIdx = Except.ok reply)
    (hfail : (regexSearchJson (stripThink reply)).bind (fun mt => jsonLoads mt) = none) :
    ((∃ f ∈ fields, dictContains kvs f = true) →
      ∃ sel : JDict, sel ≠ [] ∧
        filter_response env st (Json.obj kvs) (Json.arr (fields.map Json.str))
          = .ok (Json.obj sel, { st with genIdx := st.genIdx + 1 }) ∧
        (∀ k, dictContains sel k = true ↔ (k ∈ fields ∧ dictContains kvs k = true))) ∧
    ((∀ f ∈ fields, dictContains kvs f = false) →
      filter_response env st (Json.obj kvs) (Json.arr (fields.map Json.str))
        = .ok (Json.obj kvs, { st with genIdx := st.genIdx + 1 })) := by
  obtain ⟨sel, hsel, hiff⟩ := selectFields_spec kvs fields []
  have hiff' : ∀ k, dictContains sel k = true ↔ (k ∈ fields ∧ dictContains kvs k = true) := by
    intro k
    rw [hiff k]
    simp [dictContains_nil]
  have hfr : filter_response env st (Json.obj kvs) (Json.arr (fields.map Json.str))
      = .ok (if sel.isEmpty then Json.obj kvs else Json.obj sel,
             { st with genIdx := st.genIdx + 1 }) := by
    unfold filter_response generate
    rw [hgen]
    simp only [hbig, if_false, filter_model_path, hfail, fieldElems, hsel]
  constructor
  · rintro ⟨f, hfm, hfc⟩
    have hin : dictContains sel f = true := (hiff' f).mpr ⟨hfm, hfc⟩
    have hne : sel ≠ [] := by
      intro hnil
      rw [hnil] at hin
      simp [dictContains_nil] at hin
    refine ⟨sel, hne, ?_, hiff'⟩
    rw [hfr]
    have hie : sel.isEmpty = false := by
      cases sel with
      | nil => exact absurd rfl hne
      | cons a b => rfl
    simp [hie]
  · intro hnone
    have hempty : sel = [] := by
      cases hse : sel with
      | nil => rfl
      | cons kv rest =>
        obtain ⟨k0, v0⟩ := kv
        have : dictContains sel k0 = true := by
          rw [hse]
          exact (dictContains_cons k0 v0 rest k0).mpr (Or.inl rfl)
        obtain ⟨hm, hc⟩ := (hiff' k0).mp this
        exact absurd hc (by simp [hnone k0 hm])
    rw [hfr, hempty]
    rfl

set_option maxRecDepth 8000 in
/-- C5 witness: a large mapping, one present and one absent requested
field, and a sub-model reply with no recoverable JSON. -/
theorem c5_witness :
    (¬ (dumpsIndent2 (Json.obj [(chars "body", Json.str (List.replicate 600 'a'))])).length < 500) ∧
    ((⟨fun _ => Except.ok (chars "cannot comply"), fun _ => 0⟩ : Env).gen initSt.genIdx
       = Except.ok (chars "cannot comply")) ∧
    ((regexSearchJson (stripThink (chars "cannot comply"))).bind (fun mt => jsonLoads mt) = none) ∧
    (∃ f ∈ [chars "body", chars "missing"],
       dictContains [(chars "body", Json.str (List.replicate 600 'a'))] f = true) ∧
    ∃ sel : JDict, sel ≠ [] ∧
      filter_response ⟨fun _ => Except.ok (chars "cannot comply"), fun _ => 0⟩ initSt
          (Json.obj [(chars "body", Json.str (List.replicate 600 'a'))])
          (Json.arr ([chars "body", chars "missing"].map Json.str))
        = .ok (Json.obj sel, { initSt with genIdx := initSt.genIdx + 1 }) ∧
      (∀ k, dictContains sel k = true ↔
        (k ∈ [chars "body", chars "missing"] ∧
         dictContains [(chars "body", Json.str (List.replicate 600 'a'))] k = true)) := by
  refine ⟨by decide, by decide, by decide, ⟨chars "body", by decide, by decide⟩, ?_⟩
  exact (c5_fallback_preserves_data
    ⟨fun _ => Except.ok (chars "cannot comply"), fun _ => 0⟩ initSt
    [(chars "body", Json.str (List.replicate 600 'a'))]
    [chars "body", chars "missing"] (chars "cannot comply")
    (by decide) (by decide) (by decide)).1 ⟨chars "body", by decide, by decide⟩

/-- The state a phase helper leaves behind, whether it returned or
raised. -/
def outSt {α : Type} : Except (RunErr × St) (α × St) → St
  | .error (_, s) => s
  | .ok (_, s) => s

/-- The four time fields agree (the helpers outside the loop's own
timer updates never touch them). -/
def timesEq (a b : Metrics) : Prop :=
  b.phase1_time = a.phase1_time ∧ b.phase2_time = a.phase2_time ∧
  b.phase3_time = a.phase3_time ∧ b.total_time = a.total_time

theorem timesEq_refl (a : Metrics) : timesEq a a := ⟨rfl, rfl, rfl, rfl⟩

theorem generate_metrics (env : Env) (st : St) :
    (outSt (generate env st)).metrics = st.metrics := by
  unfold generate outSt
  match env.gen st.genIdx with
  | .error e => rfl
  | .ok t => rfl

theorem filter_model_path_metrics (st1 : St) (kvs : JDict) (ff : Json) (resp : Str) :
    (outSt (filter_model_path st1 kvs ff resp)).metrics = st1.metrics := by
  match hb : (regexSearchJson (stripThink resp)).bind (fun mt => jsonLoads mt) with
  | some v => simp [filter_model_path, hb, outSt]
  | none =>
    match hf : fieldElems ff with
    | .error e => simp [filter_model_path, hb, hf, outSt]
    | .ok fs =>
      match hs : selectFields kvs fs [] with
      | .error e => simp [filter_model_path, hb, hf, hs, outSt]
      | .ok sel => simp [filter_model_path, hb, hf, hs, outSt]

theorem filter_response_metrics (env : Env) (st : St) (raw : Json) (ff : Json) :
    (outSt (filter_response env st raw ff)).metrics = st.metrics := by
  unfold filter_response
  match raw with
  | .null => rfl
  | .bool b => rfl
  | .num l => rfl
  | .str s => rfl
  | .arr xs => rfl
  | .obj kvs =>
    by_cases hsize : (dumpsIndent2 (Json.obj kvs)).length < 500
    · simp only [hsize, if_true]
      rfl
    · simp only [hsize, if_false]
      match hg : generate env st with
      | .error e =>
        have hge := generate_metrics env st
        rw [hg] at hge
        exact hge
      | .ok (resp, st1) =>
        have hst1 : st1.metrics = st.metrics := by
          have hge := generate_metrics env st
          rw [hg] at hge
          exact hge
        rw [← hst1]
        exact filter_model_path_metrics st1 kvs ff resp

theorem timesEq_trans {a b c : Metrics} (h1 : timesEq a b) (h2 : timesEq b c) :
    timesEq a c :=
  ⟨h2.1.trans h1.1, h2.2.1.trans h1.2.1, h2.2.2.1.trans h1.2.2.1, h2.2.2.2.trans h1.2.2.2⟩

theorem phase2_finish_times (st2 : St) (filtered : Json) :
    timesEq st2.metrics (phase2_finish st2 filtered).2.metrics := by
  dsimp only [phase2_finish]
  split
  · exact ⟨rfl, rfl, rfl, rfl⟩
  · exact ⟨rfl, rfl, rfl, rfl⟩

theorem phase2_filter_branch_times (cfg : Config) (env : Env) (st1 : St)
    (raw ffields : Json) :
    timesEq st1.metrics (outSt (phase2_filter_branch cfg env st1 raw ffields)).metrics := by
  by_cases hc : (cfg.enable_filtering && jsonTruthy ffields) = true
  · match hfr : filter_response env st1 raw ffields with
    | .error (e, stE) =>
      have hm := filter_response_metrics env st1 raw ffields
      rw [hfr] at hm
      simp only [phase2_filter_branch, hc, if_true, hfr, outSt]
      rw [show stE.metrics = st1.metrics from hm]
      exact ⟨rfl, rfl, rfl, rfl⟩
    | .ok (f, st2) =>
      have hm := filter_response_metrics env st1 raw ffields
      rw [hfr] at hm
      simp only [phase2_filter_branch, hc, if_true, hfr, outSt]
      have := phase2_finish_times st2 f
      rw [show st2.metrics = st1.metrics from hm] at this
      exact this
  · simp only [phase2_filter_branch, hc, Bool.false_eq_true, if_false, outSt]
    exact phase2_finish_times st1 raw

theorem phase2_execution_times (cfg : Config) (env : Env) (reg : Registry)
    (st : St) (m : JDict) :
    timesEq st.metrics (outSt (phase2_execution cfg env reg st m)).metrics := by
  match hnm : dictGetD m toolKey Json.null with
  | .arr xs => simp [phase2_execution, hnm, outSt, timesEq]
  | .obj ms => simp [phase2_execution, hnm, outSt, timesEq]
  | .null => simp [phase2_execution, hnm, outSt, timesEq]
  | .bool b => simp [phase2_execution, hnm, outSt, timesEq]
  | .num l => simp [phase2_execution, hnm, outSt, timesEq]
  | .str s =>
    match hl : lookupTool reg s with
    | none => simp [phase2_execution, hnm, hl, outSt, timesEq]
    | some fn =>
      match hfn : fn (dictGetD m (chars "params") (Json.obj [])) with
      | .error emsg => simp [phase2_execution, hnm, hl, hfn, outSt, timesEq]
      | .ok raw =>
        simp only [phase2_execution, hnm, hl, hfn]
        exact timesEq_trans ⟨rfl, rfl, rfl, rfl⟩ (phase2_filter_branch_times _ _ _ _ _)

theorem phase3_update_state_metrics (env : Env) (st : St) :
    (match phase3_update_state env st with
     | .error (_, s) => s
     | .ok s => s).metrics = st.metrics := by
  unfold phase3_update_state
  match hg : generate env st with
  | .error (e, stE) =>
    have hm := generate_metrics env st
    rw [hg] at hm
    exact hm
  | .ok (resp, st1) =>
    have hm := generate_metrics env st
    rw [hg] at hm
    exact hm

theorem direct_response_metrics (env : Env) (st : St) :
    (outSt (direct_response env st)).metrics = st.metrics := by
  unfold direct_response
  match hg : generate env st with
  | .error (e, stE) =>
    have hm := generate_metrics env st
    rw [hg] at hm
    exact hm
  | .ok (r0, st1) =>
    have hm1 : st1.metrics = st.metrics := by
      have hm := generate_metrics env st
      rw [hg] at hm
      exact hm
    by_cases hlen : (pyStrip (stripThink r0)).length < 10
    · simp only [hlen, if_true]
      match hg2 : generate env st1 with
      | .error (e, stE) =>
        have hm2 := generate_metrics env st1
        rw [hg2] at hm2
        exact hm2.trans hm1
      | .ok (r1, st2) =>
        have hm2 := generate_metrics env st1
        rw [hg2] at hm2
        exact hm2.trans hm1
    · simp only [hlen, if_false]
      exact hm1

theorem finishRun_times (env : Env) (st : St) (pcalls : Nat) (trace : List Nat)
    (tag : Str → Outcome) :
    (finishRun env st pcalls trace tag).st.metrics = st.metrics := by
  unfold finishRun generate_final_answer
  match hg : generate env st with
  | .error (e, stE) =>
    have hm := generate_metrics env st
    rw [hg] at hm
    exact hm
  | .ok (ans, st1) =>
    have hm := generate_metrics env st
    rw [hg] at hm
    exact hm

/-- Across the loop: `total_time` never changes, the three phase
timers never decrease. -/
def timesMono (a b : Metrics) : Prop :=
  b.total_time = a.total_time ∧ a.phase1_time ≤ b.phase1_time ∧
  a.phase2_time ≤ b.phase2_time ∧ a.phase3_time ≤ b.phase3_time

theorem timesMono_refl (a : Metrics) : timesMono a a :=
  ⟨rfl, Nat.le_refl _, Nat.le_refl _, Nat.le_refl _⟩

theorem timesMono_trans {a b c : Metrics} (h1 : timesMono a b) (h2 : timesMono b c) :
    timesMono a c :=
  ⟨h2.1.trans h1.1, h1.2.1.trans h2.2.1, h1.2.2.1.trans h2.2.2.1,
   h1.2.2.2.trans h2.2.2.2⟩

theorem timesMono_of_timesEq {a b : Metrics} (h : timesEq a b) : timesMono a b :=
  ⟨h.2.2.2, Nat.le_of_eq h.1.symm, Nat.le_of_eq h.2.1.symm, Nat.le_of_eq h.2.2.1.symm⟩

theorem timesMono_of_eq {a b : Metrics} (h : b = a) : timesMono a b := by
  rw [h]
  exact timesMono_refl a

theorem addPhase1Time_times (env : Env) (st1 : St) :
    timesMono st1.metrics (addPhase1Time env st1).metrics := by
  dsimp only [addPhase1Time, tick]
  exact ⟨rfl, Nat.le_add_right _ _, Nat.le_refl _, Nat.le_refl _⟩

theorem loopFinishBranch_metrics (env : Env) (st2 : St) (turn pcalls : Nat)
    (trace1 : List Nat) :
    (loopFinishBranch env st2 turn pcalls trace1).st.metrics = st2.metrics := by
  unfold loopFinishBranch
  by_cases h1 : turn = 1
  · simp only [h1, if_true]
    match hd : direct_response env st2 with
    | .error (e, stE) =>
      have hm := direct_response_metrics env st2
      rw [hd] at hm
      exact hm
    | .ok (ans, st3) =>
      have hm := direct_response_metrics env st2
      rw [hd] at hm
      exact hm
  · simp only [h1, if_false]
    exact finishRun_times env st2 pcalls trace1 .finishSignal

/-- The state a `loopPhases23` call leaves behind. -/
def outSt2 : Except (RunErr × St) St → St
  | .error (_, s) => s
  | .ok s => s

theorem loopPhases23_times (cfg : Config) (env : Env) (reg : Registry)
    (st2 : St) (m : JDict) :
    timesMono st2.metrics (outSt2 (loopPhases23 cfg env reg st2 m)).metrics := by
  match h2 : phase2_execution cfg env reg st2 m with
  | .error (e, stE) =>
    have hm := phase2_execution_times cfg env reg st2 m
    rw [h2] at hm
    simp only [loopPhases23, h2, outSt2]
    exact timesMono_of_timesEq hm
  | .ok (x, st3) =>
    have hm2 : timesEq st2.metrics st3.metrics := by
      have hm := phase2_execution_times cfg env reg st2 m
      rw [h2] at hm
      exact hm
    simp only [loopPhases23, h2]
    have hmono3 : timesMono st3.metrics
        ({ (tick env st3).2 with metrics := { (tick env st3).2.metrics with
            phase2_time := (tick env st3).2.metrics.phase2_time + (tick env st3).1 } } : St).metrics := by
      dsimp only [tick]
      exact ⟨rfl, Nat.le_refl _, Nat.le_add_right _ _, Nat.le_refl _⟩
    generalize hst4 : ({ (tick env st3).2 with metrics := { (tick env st3).2.metrics with
        phase2_time := (tick env st3).2.metrics.phase2_time + (tick env st3).1 } } : St) = st4
    rw [hst4] at hmono3
    match h3 : phase3_update_state env st4 with
    | .error (e, stE) =>
      have hp3 := phase3_update_state_metrics env st4
      rw [h3] at hp3
      simp only [outSt2]
      exact timesMono_trans (timesMono_of_timesEq hm2)
        (timesMono_trans hmono3 (timesMono_of_eq hp3))
    | .ok st5 =>
      have hp3 := phase3_update_state_metrics env st4
      rw [h3] at hp3
      simp only [outSt2]
      have hmono5 : timesMono st5.metrics
          ({ (tick env st5).2 with metrics := { (tick env st5).2.metrics with
              phase3_time := (tick env st5).2.metrics.phase3_time + (tick env st5).1 } } : St).metrics := by
        dsimp only [tick]
        exact ⟨rfl, Nat.le_refl _, Nat.le_refl _, Nat.le_add_right _ _⟩
      exact timesMono_trans (timesMono_of_timesEq hm2)
        (timesMono_trans hmono3
          (timesMono_trans (timesMono_of_eq hp3) hmono5))

theorem runLoop_times (cfg : Config) (env : Env) (reg : Registry) (maxTurns : Nat) :
    ∀ (fuel turn : Nat) (st : St) (pcalls : Nat) (trace : List Nat),
      timesMono st.metrics
        (runLoop cfg env reg maxTurns fuel turn st pcalls trace).st.metrics := by
  intro fuel
  induction fuel with
  | zero =>
    intro turn st pcalls trace
    simp only [runLoop]
    exact timesMono_of_eq (finishRun_times env st pcalls trace .exhausted)
  | succ f ih =>
    intro turn st pcalls trace
    by_cases ht : turn ≤ maxTurns
    · match hg : generate env st with
      | .error (e, stE) =>
        have hm := generate_metrics env st
        rw [hg] at hm
        simp only [runLoop, ht, if_true, hg]
        exact timesMono_of_eq hm
      | .ok (resp, st1) =>
        have hm1 : st1.metrics = st.metrics := by
          have hm := generate_metrics env st
          rw [hg] at hm
          exact hm
        have hbase : timesMono st.metrics (addPhase1Time env st1).metrics := by
          have h := addPhase1Time_times env st1
          rw [hm1] at h
          exact h
        match hp : parse_tool_request resp with
        | none =>
          simp only [runLoop, ht, if_true, hg, hp]
          rw [loopFinishBranch_metrics]
          exact hbase
        | some m =>
          match hl : loopPhases23 cfg env reg (addPhase1Time env st1) m with
          | .error (e, stE) =>
            have hm23 := loopPhases23_times cfg env reg (addPhase1Time env st1) m
            rw [hl] at hm23
            simp only [outSt2] at hm23
            simp only [runLoop, ht, if_true, hg, hp, hl]
            exact timesMono_trans hbase hm23
          | .ok st6 =>
            have hm23 := loopPhases23_times cfg env reg (addPhase1Time env st1) m
            rw [hl] at hm23
            simp only [outSt2] at hm23
            simp only [runLoop, ht, if_true, hg, hp, hl]
            exact timesMono_trans hbase (timesMono_trans hm23 (ih (turn + 1) st6 (pcalls + 1)
              (trace ++ [turn])))
    · simp only [runLoop, ht, if_false]
      exact timesMono_of_eq (finishRun_times env st pcalls trace .exhausted)

theorem run_times (cfg : Config) (env : Env) (reg : Registry) (q : Str) (n : Nat)
    (st : St) : timesMono st.metrics (run cfg env reg q n st).st.metrics :=
  runLoop_times cfg env reg n n 1 { st with summary := chars "No actions taken yet." } 0 []

/-- C10: the `total_time` field of the orchestration metrics is never
assigned by any operation. Across any single `run` it is preserved
unchanged (whether the run returns or raises), so over any sequence of
`run` calls on a fresh orchestrator `get_metrics` keeps reporting
`total_time = 0`, even though the per-phase timers are monotonically
accumulated by the loop. -/
theorem c10_total_time_never_assigned :
    (∀ (cfg : Config) (env : Env) (reg : Registry) (q : Str) (n : Nat) (st : St),
        (run cfg env reg q n st).st.metrics.total_time = st.metrics.total_time) ∧
    (∀ (cfg : Config) (env : Env) (reg : Registry) (runs : List (Str × Nat)),
        (get_metrics (runSeq cfg env reg runs initSt).metrics).total_time = 0) ∧
    (∀ (cfg : Config) (env : Env) (reg : Registry) (q : Str) (n : Nat) (st : St),
        st.metrics.phase1_time ≤ (run cfg env reg q n st).st.metrics.phase1_time ∧
        st.metrics.phase2_time ≤ (run cfg env reg q n st).st.metrics.phase2_time ∧
        st.metrics.phase3_time ≤ (run cfg env reg q n st).st.metrics.phase3_time) := by
  have hone : ∀ cfg env reg q n st,
      (run cfg env reg q n st).st.metrics.total_time = st.metrics.total_time :=
    fun cfg env reg q n st => (run_times cfg env reg q n st).1
  refine ⟨hone, ?_, ?_⟩
  · intro cfg env reg runs
    have : ∀ (rs : List (Str × Nat)) (st : St),
        (runSeq cfg env reg rs st).metrics.total_time = st.metrics.total_time := by
      intro rs
      induction rs with
      | nil => intro st; rfl
      | cons p rest ih =>
        intro st
        obtain ⟨q, n⟩ := p
        simp only [runSeq]
        rw [ih, hone]
    rw [show (get_metrics (runSeq cfg env reg runs initSt).metrics).total_time
        = (runSeq cfg env reg runs initSt).metrics.total_time from rfl, this]
    rfl
  · intro cfg env reg q n st
    exact ⟨(run_times cfg env reg q n st).2.1, (run_times cfg env reg q n st).2.2.1,
           (run_times cfg env reg q n st).2.2.2⟩

theorem finishRun_calls (env : Env) (st : St) (pcalls : Nat) (trace : List Nat)
    (tag : Str → Outcome) :
    (finishRun env st pcalls trace tag).planningCalls = pcalls ∧
    (finishRun env st pcalls trace tag).turnTrace = trace := by
  unfold finishRun generate_final_answer
  match hg : generate env st with
  | .error (e, stE) => exact ⟨rfl, rfl⟩
  | .ok (ans, st1) => exact ⟨rfl, rfl⟩

theorem loopFinishBranch_calls (env : Env) (st2 : St) (turn pcalls : Nat)
    (trace1 : List Nat) :
    (loopFinishBranch env st2 turn pcalls trace1).planningCalls = pcalls ∧
    (loopFinishBranch env st2 turn pcalls trace1).turnTrace = trace1 := by
  unfold loopFinishBranch
  by_cases h1 : turn = 1
  · simp only [h1, if_true]
    match hd : direct_response env st2 with
    | .error (e, stE) => exact ⟨rfl, rfl⟩
    | .ok (ans, st3) => exact ⟨rfl, rfl⟩
  · simp only [h1, if_false]
    exact finishRun_calls env st2 pcalls trace1 .finishSignal

/-- One planning call is counted per entered loop iteration; the
entered iterations carry the consecutive turn numbers. -/
theorem runLoop_spec (cfg : Config) (env : Env) (reg : Registry) (maxTurns : Nat) :
    ∀ (fuel turn : Nat) (st : St) (pcalls : Nat) (trace : List Nat),
      ∃ k, k ≤ fuel ∧ (0 < fuel → turn ≤ maxTurns → 0 < k) ∧
        (runLoop cfg env reg maxTurns fuel turn st pcalls trace).planningCalls
          = pcalls + k ∧
        (runLoop cfg env reg maxTurns fuel turn st pcalls trace).turnTrace
          = trace ++ List.range' turn k := by
  intro fuel
  induction fuel with
  | zero =>
    intro turn st pcalls trace
    refine ⟨0, Nat.le_refl _, by omega, ?_, ?_⟩
    · simp only [runLoop]
      exact (finishRun_calls env st pcalls trace .exhausted).1
    · simp only [runLoop]
      rw [(finishRun_calls env st pcalls trace .exhausted).2]
      simp [List.range']
  | succ f ih =>
    intro turn st pcalls trace
    by_cases ht : turn ≤ maxTurns
    · match hg : generate env st with
      | .error (e, stE) =>
        refine ⟨1, by omega, by omega, ?_, ?_⟩
        · simp only [runLoop, ht, if_true, hg]
        · simp only [runLoop, ht, if_true, hg]
          simp [List.range']
      | .ok (resp, st1) =>
        match hp : parse_tool_request resp with
        | none =>
          refine ⟨1, by omega, by omega, ?_, ?_⟩
          · simp only [runLoop, ht, if_true, hg, hp]
            exact (loopFinishBranch_calls env (addPhase1Time env st1) turn
              (pcalls + 1) (trace ++ [turn])).1
          · simp only [runLoop, ht, if_true, hg, hp]
            rw [(loopFinishBranch_calls env (addPhase1Time env st1) turn
              (pcalls + 1) (trace ++ [turn])).2]
            simp [List.range']
        | some m =>
          match hl : loopPhases23 cfg env reg (addPhase1Time env st1) m with
          | .error (e, stE) =>
            refine ⟨1, by omega, by omega, ?_, ?_⟩
            · simp only [runLoop, ht, if_true, hg, hp, hl]
            · simp only [runLoop, ht, if_true, hg, hp, hl]
              simp [List.range']
          | .ok st6 =>
            obtain ⟨k, hk, hkpos, hcalls, htrace⟩ :=
              ih (turn + 1) st6 (pcalls + 1) (trace ++ [turn])
            refine ⟨k + 1, by omega, by omega, ?_, ?_⟩
            · simp only [runLoop, ht, if_true, hg, hp, hl]
              rw [hcalls]
              omega
            · simp only [runLoop, ht, if_true, hg, hp, hl]
              rw [htrace]
              rw [List.range'_succ turn k 1]
              simp
    · refine ⟨0, by omega, by omega, ?_, ?_⟩
      · simp only [runLoop, ht, if_false]
        exact (finishRun_calls env st pcalls trace .exhausted).1
      · simp only [runLoop, ht, if_false]
        rw [(finishRun_calls env st pcalls trace .exhausted).2]
        simp [List.range']

/-- C1: for every `maxTurns = N ≥ 1` and every behavior of the
planning model (and of every other oracle), `run` performs at most `N`
planning calls; the entered turns are exactly `1, 2, ..., k` for the
number `k` of planning calls, so the turn counter is strictly
increasing; and the run ends in one of the enumerated ways — a
propagated error, a first-turn direct response, an explicit finish
signal followed by a final answer, or exhaustion of the turn limit
followed by a final answer. Termination itself is witnessed by `run`
being a total function of the oracle. -/
theorem c1_turn_loop_terminates (cfg : Config) (env : Env) (reg : Registry)
    (q : Str) (N : Nat) (st : St) (hN : 1 ≤ N) :
    (run cfg env reg q N st).planningCalls ≤ N ∧
    (run cfg env reg q N st).turnTrace
      = List.range' 1 (run cfg env reg q N st).planningCalls ∧
    List.Chain' (· < ·) (run cfg env reg q N st).turnTrace ∧
    ((∃ e, (run cfg env reg q N st).outcome = .error e) ∨
     (∃ a, (run cfg env reg q N st).outcome = .ok (.direct a)) ∨
     (∃ a, (run cfg env reg q N st).outcome = .ok (.finishSignal a)) ∨
     (∃ a, (run cfg env reg q N st).outcome = .ok (.exhausted a))) := by
  obtain ⟨k, hk, hkpos, hcalls, htrace⟩ := runLoop_spec cfg env reg N N 1
    { st with summary := chars "No actions taken yet." } 0 []
  have hrun : run cfg env reg q N st
      = runLoop cfg env reg N N 1 { st with summary := chars "No actions taken yet." } 0 [] :=
    rfl
  refine ⟨?_, ?_, ?_, ?_⟩
  · rw [hrun, hcalls]
    omega
  · rw [hrun, hcalls, htrace]
    simp
  · rw [hrun, htrace]
    simp only [List.nil_append]
    exact (List.pairwise_lt_range' 1 k).chain'
  · rcases ho : (run cfg env reg q N st).outcome with e | o
    · exact Or.inl ⟨e, rfl⟩
    · match o with
      | .direct a => exact Or.inr (Or.inl ⟨a, rfl⟩)
      | .finishSignal a => exact Or.inr (Or.inr (Or.inl ⟨a, rfl⟩))
      | .exhausted a => exact Or.inr (Or.inr (Or.inr ⟨a, rfl⟩))

/-- C1 witness: a concrete one-turn run. -/
theorem c1_witness :
    1 ≤ 1 ∧
    (run ⟨true⟩ ⟨fun _ => Except.ok (chars "\x7b\"tool\": null\x7d"), fun _ => 0⟩ []
        [] 1 initSt).planningCalls ≤ 1 :=
  ⟨by decide,
   (c1_turn_loop_terminates ⟨true⟩
      ⟨fun _ => Except.ok (chars "\x7b\"tool\": null\x7d"), fun _ => 0⟩ [] [] 1 initSt
      (by decide)).1⟩

theorem finishRun_outcome (env : Env) (st : St) (pcalls : Nat) (trace : List Nat)
    (tag : Str → Outcome) :
    (∃ a, (finishRun env st pcalls trace tag).outcome = .ok (tag a)) ∨
    (∃ e, (finishRun env st pcalls trace tag).outcome = .error e) := by
  unfold finishRun generate_final_answer
  match hg : generate env st with
  | .error (e, stE) => exact Or.inr ⟨e, rfl⟩
  | .ok (ans, st1) => exact Or.inl ⟨ans, rfl⟩

/-- C9 counterexample: `run` does not fail fast on an empty query or
on `maxTurns < 1`. With an empty query and `maxTurns = 1` a planning
call is performed (the claim says none may happen), and with
`maxTurns = 0` the run returns an ordinary final answer generated by
the backend instead of raising a configuration error. -/
theorem c9_counterexample :
    (run ⟨true⟩ ⟨fun _ => Except.ok (chars "backend reply"), fun _ => 0⟩ [] []
        1 initSt).planningCalls = 1 ∧
    (run ⟨true⟩ ⟨fun _ => Except.ok (chars "backend reply"), fun _ => 0⟩ [] []
        0 initSt).outcome = .ok (.exhausted (chars "backend reply")) := by
  constructor
  · decide
  · decide

/-- C9 (amended): `run` performs no validation of its inputs. With
`maxTurns < 1` the `while` loop is skipped — zero planning, execution
or state-update calls — and control falls through to final-answer
generation, which returns its text (or propagates a backend error)
rather than raising a configuration error; an empty query is processed
exactly like any other, with the loop entered and a planning call
performed whenever `maxTurns ≥ 1`. -/
theorem c9_no_validation :
    (∀ (cfg : Config) (env : Env) (reg : Registry) (q : Str) (st : St),
        (run cfg env reg q 0 st).planningCalls = 0 ∧
        ((∃ a, (run cfg env reg q 0 st).outcome = .ok (.exhausted a)) ∨
         (∃ e, (run cfg env reg q 0 st).outcome = .error e))) ∧
    (∀ (cfg : Config) (env : Env) (reg : Registry) (q : Str) (n : Nat) (st : St),
        1 ≤ n → 1 ≤ (run cfg env reg q n st).planningCalls) := by
  constructor
  · intro cfg env reg q st
    constructor
    · exact (finishRun_calls env { st with summary := chars "No actions taken yet." }
        0 [] .exhausted).1
    · exact finishRun_outcome env { st with summary := chars "No actions taken yet." }
        0 [] .exhausted
  · intro cfg env reg q n st hn
    obtain ⟨k, hk, hkpos, hcalls, htrace⟩ := runLoop_spec cfg env reg n n 1
      { st with summary := chars "No actions taken yet." } 0 []
    have hrun : run cfg env reg q n st
        = runLoop cfg env reg n n 1 { st with summary := chars "No actions taken yet." } 0 [] :=
      rfl
    rw [hrun, hcalls]
    have := hkpos (by omega) (by omega)
    omega

/-- C9 witness: the loop is entered for a nonempty turn budget. -/
theorem c9_witness :
    1 ≤ 2 ∧
    1 ≤ (run ⟨true⟩ ⟨fun _ => Except.ok [], fun _ => 0⟩ [] (chars "hi") 2
          initSt).planningCalls :=
  ⟨by decide,
   c9_no_validation.2 ⟨true⟩ ⟨fun _ => Except.ok [], fun _ => 0⟩ [] (chars "hi") 2
     initSt (by decide)⟩

theorem phase2_unknown_tool (cfg : Config) (env : Env) (reg : Registry) (st : St)
    (m : JDict) (name : Str)
    (hname : dictGetD m toolKey Json.null = Json.str name)
    (hreg : lookupTool reg name = none) :
    phase2_execution cfg env reg st m =
      .ok (dumps (Json.obj [(chars "error",
              Json.str (chars "Unknown tool: " ++ name))]),
           { st with metrics := { st.metrics with tool_name := Json.str name } }) := by
  simp [phase2_execution, hname, hreg, pyStr]

theorem phase2_raising_tool (cfg : Config) (env : Env) (reg : Registry) (st : St)
    (m : JDict) (name : Str) (fn : ToolFn) (emsg : Str)
    (hname : dictGetD m toolKey Json.null = Json.str name)
    (hreg : lookupTool reg name = some fn)
    (hfn : fn (dictGetD m (chars "params") (Json.obj [])) = .error emsg) :
    phase2_execution cfg env reg st m =
      .ok (dumps (Json.obj [(chars "error", Json.str emsg)]),
           { st with metrics := { st.metrics with tool_name := Json.str name } }) := by
  simp [phase2_execution, hname, hreg, hfn]

theorem finishRun_const_gen (env : Env) (st : St) (pcalls : Nat) (trace : List Nat)
    (tag : Str → Outcome) (R : Str) (hgen : ∀ k, env.gen k = .ok R) :
    finishRun env st pcalls trace tag
      = ⟨.ok (tag R), { st with genIdx := st.genIdx + 1 }, pcalls, trace⟩ := by
  simp [finishRun, generate_final_answer, generate, hgen]

theorem loopPhases23_ok_of_const_gen (cfg : Config) (env : Env) (reg : Registry)
    (st2 : St) (m : JDict) (R r : Str) (st3 : St)
    (h2 : phase2_execution cfg env reg st2 m = .ok (r, st3))
    (hgen : ∀ k, env.gen k = .ok R) :
    ∃ st6, loopPhases23 cfg env reg st2 m = .ok st6 := by
  match hl : loopPhases23 cfg env reg st2 m with
  | .ok st6 => exact ⟨st6, rfl⟩
  | .error (e, stE) =>
    simp only [loopPhases23, h2, phase3_update_state, generate, hgen] at hl
    exact Except.noConfusion hl

/-- With a planner that always answers with an unknown-tool request
and a backend that never fails, every loop iteration runs its three
phases and moves on: the run exhausts the whole turn budget and ends
in the final answer, counting one planning call per available turn. -/
theorem unknownToolLoop (cfg : Config) (env : Env) (reg : Registry) (maxTurns : Nat)
    (hgen : ∀ k, env.gen k = .ok (chars "\x7b\"tool\": \"does_not_exist\"\x7d"))
    (hreg : lookupTool reg (chars "does_not_exist") = none) :
    ∀ (fuel turn : Nat) (st : St) (pcalls : Nat) (trace : List Nat),
      (runLoop cfg env reg maxTurns fuel turn st pcalls trace).outcome
        = .ok (.exhausted (chars "\x7b\"tool\": \"does_not_exist\"\x7d")) ∧
      (runLoop cfg env reg maxTurns fuel turn st pcalls trace).planningCalls
        = pcalls + min fuel (maxTurns + 1 - turn) := by
  have hparse : parse_tool_request (chars "\x7b\"tool\": \"does_not_exist\"\x7d")
      = some [(toolKey, Json.str (chars "does_not_exist"))] := by decide
  have hname : dictGetD [(toolKey, Json.str (chars "does_not_exist"))] toolKey Json.null
      = Json.str (chars "does_not_exist") := by decide
  intro fuel
  induction fuel with
  | zero =>
    intro turn st pcalls trace
    simp only [runLoop]
    rw [finishRun_const_gen env st pcalls trace .exhausted _ hgen]
    refine ⟨rfl, ?_⟩
    dsimp only
    omega
  | succ f ih =>
    intro turn st pcalls trace
    by_cases ht : turn ≤ maxTurns
    · have hg : generate env st
          = .ok (chars "\x7b\"tool\": \"does_not_exist\"\x7d",
                 { st with genIdx := st.genIdx + 1 }) := by
        simp [generate, hgen]
      have h2 := phase2_unknown_tool cfg env reg
        (addPhase1Time env { st with genIdx := st.genIdx + 1 })
        [(toolKey, Json.str (chars "does_not_exist"))] (chars "does_not_exist")
        hname hreg
      obtain ⟨st6, h23⟩ := loopPhases23_ok_of_const_gen cfg env reg
        (addPhase1Time env { st with genIdx := st.genIdx + 1 })
        [(toolKey, Json.str (chars "does_not_exist"))]
        (chars "\x7b\"tool\": \"does_not_exist\"\x7d") _ _ h2 hgen
      obtain ⟨hout, hcalls⟩ := ih (turn + 1) st6 (pcalls + 1) (trace ++ [turn])
      constructor
      · simp only [runLoop, ht, if_true, hg, hparse, h23]
        exact hout
      · simp only [runLoop, ht, if_true, hg, hparse, h23]
        rw [hcalls]
        omega
    · simp only [runLoop, ht, if_false]
      rw [finishRun_const_gen env st pcalls trace .exhausted _ hgen]
      refine ⟨rfl, ?_⟩
      dsimp only
      omega

/-- C3: failed tool calls do not raise and do not end the run. An
unknown tool name makes `_phase2_execution` return the serialized
`\x7b"error": "Unknown tool: <name>"\x7d` payload; a registered tool whose
callable raises is caught at the boundary and becomes
`\x7b"error": <message>\x7d`; and a planner that always requests the tool
`does_not_exist` (with a healthy backend) drives the loop through all
`N` turns to the exhaustion final answer — each failure is an ordinary
turn that proceeds to the state update and the next turn. -/
theorem c3_failed_tool_calls :
    (∀ (cfg : Config) (env : Env) (reg : Registry) (st : St) (m : JDict) (name : Str),
        dictGetD m toolKey Json.null = Json.str name →
        lookupTool reg name = none →
        phase2_execution cfg env reg st m =
          .ok (dumps (Json.obj [(chars "error",
                  Json.str (chars "Unknown tool: " ++ name))]),
               { st with metrics := { st.metrics with tool_name := Json.str name } })) ∧
    (∀ (cfg : Config) (env : Env) (reg : Registry) (st : St) (m : JDict)
        (name : Str) (fn : ToolFn) (emsg : Str),
        dictGetD m toolKey Json.null = Json.str name →
        lookupTool reg name = some fn →
        fn (dictGetD m (chars "params") (Json.obj [])) = .error emsg →
        phase2_execution cfg env reg st m =
          .ok (dumps (Json.obj [(chars "error", Json.str emsg)]),
               { st with metrics := { st.metrics with tool_name := Json.str name } })) ∧
    (∀ (cfg : Config) (env : Env) (reg : Registry) (q : Str) (N : Nat) (st : St),
        (∀ k, env.gen k = .ok (chars "\x7b\"tool\": \"does_not_exist\"\x7d")) →
        lookupTool reg (chars "does_not_exist") = none →
        (run cfg env reg q N st).outcome
          = .ok (.exhausted (chars "\x7b\"tool\": \"does_not_exist\"\x7d")) ∧
        (run cfg env reg q N st).planningCalls = N) := by
  refine ⟨phase2_unknown_tool, phase2_raising_tool, ?_⟩
  intro cfg env reg q N st hgen hreg
  obtain ⟨hout, hcalls⟩ := unknownToolLoop cfg env reg N hgen hreg N 1
    { st with summary := chars "No actions taken yet." } 0 []
  have hrun : run cfg env reg q N st
      = runLoop cfg env reg N N 1 { st with summary := chars "No actions taken yet." } 0 [] :=
    rfl
  rw [hrun]
  refine ⟨hout, ?_⟩
  rw [hcalls]
  omega

/-- C3 witness: a concrete unknown-tool request against an empty
registry. -/
theorem c3_witness :
    dictGetD [(toolKey, Json.str (chars "does_not_exist"))] toolKey Json.null
      = Json.str (chars "does_not_exist") ∧
    lookupTool [] (chars "does_not_exist") = none ∧
    phase2_execution ⟨true⟩ ⟨fun _ => Except.ok [], fun _ => 0⟩ [] initSt
        [(toolKey, Json.str (chars "does_not_exist"))] =
      .ok (dumps (Json.obj [(chars "error",
              Json.str (chars "Unknown tool: " ++ chars "does_not_exist"))]),
           { initSt with metrics := { initSt.metrics with
               tool_name := Json.str (chars "does_not_exist") } }) :=
  ⟨by decide, rfl,
   c3_failed_tool_calls.1 ⟨true⟩ ⟨fun _ => Except.ok [], fun _ => 0⟩ [] initSt
     [(toolKey, Json.str (chars "does_not_exist"))] (chars "does_not_exist")
     (by decide) rfl⟩

theorem not_prefix_of_no_head (c0 : Char) (ps cs : Str) (h : ∀ c ∈ cs, c ≠ c0) :
    (c0 :: ps).isPrefixOf cs = false := by
  match cs with
  | [] => rfl
  | c :: t =>
    have hc : c ≠ c0 := h c (List.mem_cons_self c t)
    simp [List.isPrefixOf]
    intro he
    exact absurd he.symm hc

theorem splitFirst_none_of_head_not_mem (c0 : Char) (ps cs : Str)
    (h : ∀ c ∈ cs, c ≠ c0) : splitFirst (c0 :: ps) cs = none := by
  induction cs with
  | nil =>
    unfold splitFirst
    simp [not_prefix_of_no_head c0 ps [] (by intro c hc; cases hc)]
  | cons c t ih =>
    unfold splitFirst
    rw [not_prefix_of_no_head c0 ps (c :: t) h]
    simp only [Bool.false_eq_true, if_false]
    rw [ih (fun x hx => h x (List.mem_cons_of_mem c hx))]

theorem stripThink_eq_self_of_no_lt (cs : Str) (h : ∀ c ∈ cs, c ≠ '<') :
    stripThink cs = cs := by
  apply stripThink_eq_self_of_no_match
  unfold hasThinkMatch
  rw [show thinkOpen = '<' :: chars "think>" from rfl]
  rw [splitFirst_none_of_head_not_mem '<' (chars "think>") cs h]

theorem subPatWs_nil (p0 : Char) (ps : Str) : subPatWs p0 ps [] = [] := rfl

theorem subPatWs_cons_unmatched (p0 : Char) (ps : Str) (c : Char) (t : Str)
    (h : (p0 :: ps).isPrefixOf (c :: t) = false) :
    subPatWs p0 ps (c :: t) = c :: subPatWs p0 ps t := by
  show subPatWsFuel p0 ps (t.length + 1) (c :: t) = _
  simp only [subPatWsFuel, h, Bool.false_eq_true, if_false]
  rfl

theorem subPatWs_append_of_no_head (p0 : Char) (ps : Str) (p rest : Str)
    (hp : ∀ c ∈ p, c ≠ p0) :
    subPatWs p0 ps (p ++ rest) = p ++ subPatWs p0 ps rest := by
  induction p with
  | nil => simp
  | cons c p' ih =>
    have hc : c ≠ p0 := hp c (List.mem_cons_self c p')
    have hpre : (p0 :: ps).isPrefixOf (c :: (p' ++ rest)) = false := by
      simp [List.isPrefixOf]
      intro he
      exact absurd he.symm hc
    rw [List.cons_append, subPatWs_cons_unmatched p0 ps c (p' ++ rest) hpre,
      ih (fun x hx => hp x (List.mem_cons_of_mem c hx))]
    simp

theorem subPatWs_eq_self_of_no_head (p0 : Char) (ps : Str) (p : Str)
    (hp : ∀ c ∈ p, c ≠ p0) : subPatWs p0 ps p = p := by
  have h := subPatWs_append_of_no_head p0 ps p [] hp
  rw [subPatWs_nil] at h
  simpa using h

theorem subPatWs_match_step (p0 : Char) (ps rest : Str) :
    subPatWs p0 ps ((p0 :: ps) ++ rest) = subPatWs p0 ps (rest.dropWhile isPySpace) := by
  have hpre : (p0 :: ps).isPrefixOf (p0 :: (ps ++ rest)) = true := by
    apply List.isPrefixOf_iff_prefix.mpr
    exact ⟨rest, rfl⟩
  have hdrop : (p0 :: (ps ++ rest)).drop (p0 :: ps).length = rest := by
    have : (p0 :: ps).length = ps.length + 1 := by simp
    rw [this]
    rw [List.drop_succ_cons]
    exact List.drop_left ps rest
  show subPatWsFuel p0 ps ((p0 :: (ps ++ rest)).length) (p0 :: (ps ++ rest)) = _
  rw [show (p0 :: (ps ++ rest)).length = (ps.length + rest.length) + 1 by simp]
  rw [show subPatWsFuel p0 ps ((ps.length + rest.length) + 1) (p0 :: (ps ++ rest))
      = if (p0 :: ps).isPrefixOf (p0 :: (ps ++ rest)) then
          subPatWsFuel p0 ps (ps.length + rest.length)
            (((p0 :: (ps ++ rest)).drop (p0 :: ps).length).dropWhile isPySpace)
        else p0 :: subPatWsFuel p0 ps (ps.length + rest.length) (ps ++ rest) from rfl]
  rw [hpre]
  rw [if_pos rfl]
  rw [hdrop]
  apply subPatWsFuel_congr
  · calc (rest.dropWhile isPySpace).length ≤ rest.length := length_dropWhile_le _ _
      _ ≤ ps.length + rest.length := by omega
  · exact Nat.le_refl _

theorem dropWhile_append_of_all (p : Char → Bool) (a b : Str)
    (h : ∀ c ∈ a, p c = true) : (a ++ b).dropWhile p = b.dropWhile p := by
  induction a with
  | nil => simp
  | cons c t ih =>
    rw [List.cons_append, List.dropWhile_cons_of_pos (h c (List.mem_cons_self c t))]
    exact ih (fun x hx => h x (List.mem_cons_of_mem c hx))

theorem dropWhile_append_head_neg (p : Char → Bool) (a : Str) (c : Char) (t : Str)
    (hc : p c = false) :
    (a ++ (c :: t)).dropWhile p = a.dropWhile p ++ (c :: t) := by
  induction a with
  | nil =>
    simp only [List.nil_append, List.dropWhile_nil]
    exact List.dropWhile_cons_of_neg (by simp [hc])
  | cons x xs ih =>
    by_cases hx : p x = true
    · rw [List.cons_append, List.dropWhile_cons_of_pos hx, List.dropWhile_cons_of_pos hx, ih]
    · rw [List.cons_append, List.dropWhile_cons_of_neg (by simp [hx]),
        List.dropWhile_cons_of_neg (by simp [hx])]
      simp

theorem mem_dropWhile_imp (p : Char → Bool) (l : Str) (c : Char)
    (h : c ∈ l.dropWhile p) : c ∈ l := by
  induction l with
  | nil => simp [List.dropWhile] at h
  | cons x xs ih =>
    by_cases hx : p x = true
    · rw [List.dropWhile_cons_of_pos hx] at h
      exact List.mem_cons_of_mem x (ih h)
    · rw [List.dropWhile_cons_of_neg (by simp [hx])] at h
      exact h

theorem mem_rtrim_imp (l : Str) (c : Char)
    (h : c ∈ ((l.reverse.dropWhile isPySpace).reverse : Str)) : c ∈ l := by
  rw [List.mem_reverse] at h
  have := mem_dropWhile_imp isPySpace l.reverse c h
  rwa [List.mem_reverse] at this

theorem scanBalanced_append (rest : Str) :
    ∀ (t : Str) (d : Nat) (acc r : Str), scanBalanced d acc t = some r →
      scanBalanced d acc (t ++ rest) = some r := by
  intro t
  induction t with
  | nil =>
    intro d acc r h
    simp [scanBalanced] at h
  | cons c t' ih =>
    intro d acc r h
    rw [List.cons_append]
    unfold scanBalanced at h ⊢
    by_cases hc : c = '{'
    · simp only [hc, if_pos rfl] at h ⊢
      exact ih _ _ _ h
    · rw [if_neg hc] at h ⊢
      by_cases hc2 : c = '}'
      · simp only [hc2, if_pos rfl] at h ⊢
        by_cases hd : d = 1
        · simp only [hd, if_pos rfl] at h ⊢
          exact h
        · rw [if_neg hd] at h ⊢
          exact ih _ _ _ h
      · rw [if_neg hc2] at h ⊢
        exact ih _ _ _ h

theorem extract_json_object_extend (p1 ob tail obt : Str)
    (hob : ob = '{' :: obt)
    (hex : extract_json_object ob = some ob)
    (hp1 : ∀ c ∈ p1, c ≠ '{') :
    extract_json_object (p1 ++ ob ++ tail) = some ob := by
  subst hob
  have hpred : ∀ c ∈ p1, (fun c => !(c = '{')) c = true := by
    intro c hc
    simp [hp1 c hc]
  unfold extract_json_object at hex ⊢
  rw [List.dropWhile_cons_of_neg (by simp)] at hex
  have hscan : scanBalanced 1 ['{'] obt = some ('{' :: obt) := by simpa using hex
  rw [List.append_assoc, dropWhile_append_of_all _ p1 _ hpred,
    List.cons_append, List.dropWhile_cons_of_neg (by simp)]
  simpa using scanBalanced_append tail obt 1 ['{'] ('{' :: obt) hscan

theorem pyStrip_decomp (p1 ob y obt : Str) (hob : ob = '{' :: obt)
    (hlast : ob.getLast? = some '}') :
    pyStrip (p1 ++ ob ++ y)
      = p1.dropWhile isPySpace ++ ob ++ ((y.reverse.dropWhile isPySpace).reverse : Str) := by
  obtain ⟨obr, hobr⟩ : ∃ obr, ob.reverse = '}' :: obr := by
    have h1 : ob.reverse.head? = some '}' := by
      rw [List.head?_reverse]
      exact hlast
    match hrev : ob.reverse with
    | [] => rw [hrev] at h1; simp at h1
    | c :: t =>
      rw [hrev] at h1
      simp at h1
      exact ⟨t, by rw [h1]⟩
  have hobeq : ob = obr.reverse ++ ['}'] := by
    have := congrArg List.reverse hobr
    simpa using this
  unfold pyStrip
  have hl : (p1 ++ ob ++ y).dropWhile isPySpace
      = p1.dropWhile isPySpace ++ (ob ++ y) := by
    rw [List.append_assoc, hob, List.cons_append]
    exact dropWhile_append_head_neg isPySpace p1 '{' (obt ++ y) (by decide)
  rw [hl]
  have hr : (p1.dropWhile isPySpace ++ (ob ++ y)).reverse
      = y.reverse ++ ('}' :: (obr ++ (p1.dropWhile isPySpace).reverse)) := by
    simp [List.reverse_append, hobr]
  rw [hr]
  rw [dropWhile_append_head_neg isPySpace y.reverse '}'
    (obr ++ (p1.dropWhile isPySpace).reverse) (by decide)]
  simp [List.reverse_append, List.reverse_cons, hobeq, List.append_assoc]

theorem ws_ne_of_not_ws (x : Str) (b : Char) (hb : isPySpace b = false)
    (hx : ∀ c ∈ x, isPySpace c = true) : ∀ c ∈ x, c ≠ b := by
  intro c hc he
  rw [← he] at hb
  rw [hx c hc] at hb
  exact Bool.noConfusion hb

/-- Cleaning a fenced tool request wrapped in benign prose: the
reasoning-trace strip is the identity (no `<` anywhere), the first
fence substitution removes the opening fence and the whitespace before
the object, the second removes the closing fence and the whitespace
after it, and the final `strip()` trims the outer whitespace, leaving
the prose-prefix, the object and a brace-free tail. -/
theorem cleanResponse_decomp (p1 w1 ob w2 p2 obt : Str)
    (hp1 : ∀ c ∈ p1, c ≠ '{' ∧ c ≠ '`' ∧ c ≠ '<')
    (hp2 : ∀ c ∈ p2, c ≠ '`' ∧ c ≠ '<')
    (hw1 : ∀ c ∈ w1, isPySpace c = true)
    (hw2 : ∀ c ∈ w2, isPySpace c = true)
    (hob2 : ∀ c ∈ ob, c ≠ '`' ∧ c ≠ '<')
    (hob : ob = '{' :: obt)
    (hlast : ob.getLast? = some '}')
    (hjson : (chars "json").isPrefixOf p2 = false) :
    cleanResponse (p1 ++ (chars "```json" ++ (w1 ++ (ob ++ (w2 ++ (chars "```" ++ p2))))))
      = p1.dropWhile isPySpace ++ ob ++
        (((w2 ++ p2.dropWhile isPySpace).reverse.dropWhile isPySpace).reverse : Str) := by
  have hF1lt : ∀ c ∈ (chars "```json" : Str), c ≠ '<' := by decide
  have hF2lt : ∀ c ∈ (chars "```" : Str), c ≠ '<' := by decide
  have hA : stripThink (p1 ++ (chars "```json" ++ (w1 ++ (ob ++ (w2 ++ (chars "```" ++ p2))))))
      = p1 ++ (chars "```json" ++ (w1 ++ (ob ++ (w2 ++ (chars "```" ++ p2))))) := by
    apply stripThink_eq_self_of_no_lt
    intro c hc
    simp only [List.mem_append] at hc
    rcases hc with h | h | h | h | h | h | h
    · exact (hp1 c h).2.2
    · exact hF1lt c h
    · exact ws_ne_of_not_ws w1 '<' (by decide) hw1 c h
    · exact (hob2 c h).2
    · exact ws_ne_of_not_ws w2 '<' (by decide) hw2 c h
    · exact hF2lt c h
    · exact (hp2 c h).2
  have hdropmid : ((ob ++ (w2 ++ (chars "```" ++ p2))) : Str).dropWhile isPySpace
      = ob ++ (w2 ++ (chars "```" ++ p2)) := by
    rw [hob, List.cons_append, List.dropWhile_cons_of_neg (by decide)]
  have hpre1 : ('`' :: chars "``json").isPrefixOf ('`' :: ('`' :: ('`' :: p2))) = false := by
    have heq : ('`' :: chars "``json").isPrefixOf ('`' :: ('`' :: ('`' :: p2)))
        = (chars "json").isPrefixOf p2 := rfl
    rw [heq, hjson]
  have hpre2 : ('`' :: chars "``json").isPrefixOf ('`' :: ('`' :: p2)) = false := by
    have heq : ('`' :: chars "``json").isPrefixOf ('`' :: ('`' :: p2))
        = ('`' :: chars "json").isPrefixOf p2 := rfl
    rw [heq]
    exact not_prefix_of_no_head '`' (chars "json") p2 (fun c hc => (hp2 c hc).1)
  have hpre3 : ('`' :: chars "``json").isPrefixOf ('`' :: p2) = false := by
    have heq : ('`' :: chars "``json").isPrefixOf ('`' :: p2)
        = ('`' :: chars "`json").isPrefixOf p2 := rfl
    rw [heq]
    exact not_prefix_of_no_head '`' (chars "`json") p2 (fun c hc => (hp2 c hc).1)
  have hB : subPatWs '`' (chars "``json")
        (p1 ++ (chars "```json" ++ (w1 ++ (ob ++ (w2 ++ (chars "```" ++ p2))))))
      = p1 ++ (ob ++ (w2 ++ ('`' :: ('`' :: ('`' :: p2))))) := by
    rw [show (chars "```json" : Str) = '`' :: chars "``json" from rfl]
    rw [subPatWs_append_of_no_head '`' (chars "``json") p1 _ (fun c hc => (hp1 c hc).2.1)]
    rw [show (('`' :: chars "``json") ++ (w1 ++ (ob ++ (w2 ++ (chars "```" ++ p2)))) : Str)
        = ('`' :: chars "``json") ++ (w1 ++ (ob ++ (w2 ++ (chars "```" ++ p2)))) from rfl]
    rw [subPatWs_match_step]
    rw [dropWhile_append_of_all isPySpace w1 _ hw1]
    rw [hdropmid]
    rw [subPatWs_append_of_no_head '`' (chars "``json") ob _ (fun c hc => (hob2 c hc).1)]
    rw [subPatWs_append_of_no_head '`' (chars "``json") w2 _
      (ws_ne_of_not_ws w2 '`' (by decide) hw2)]
    rw [show ((chars "```" : Str) ++ p2) = '`' :: ('`' :: ('`' :: p2)) from rfl]
    rw [subPatWs_cons_unmatched '`' (chars "``json") '`' ('`' :: ('`' :: p2)) hpre1]
    rw [subPatWs_cons_unmatched '`' (chars "``json") '`' ('`' :: p2) hpre2]
    rw [subPatWs_cons_unmatched '`' (chars "``json") '`' p2 hpre3]
    rw [subPatWs_eq_self_of_no_head '`' (chars "``json") p2 (fun c hc => (hp2 c hc).1)]
  have hC : subPatWs '`' (chars "``")
        (p1 ++ (ob ++ (w2 ++ ('`' :: ('`' :: ('`' :: p2))))))
      = p1 ++ (ob ++ (w2 ++ p2.dropWhile isPySpace)) := by
    rw [subPatWs_append_of_no_head '`' (chars "``") p1 _ (fun c hc => (hp1 c hc).2.1)]
    rw [subPatWs_append_of_no_head '`' (chars "``") ob _ (fun c hc => (hob2 c hc).1)]
    rw [subPatWs_append_of_no_head '`' (chars "``") w2 _
      (ws_ne_of_not_ws w2 '`' (by decide) hw2)]
    rw [show ('`' :: ('`' :: ('`' :: p2)) : Str) = ('`' :: chars "``") ++ p2 from rfl]
    rw [subPatWs_match_step]
    rw [subPatWs_eq_self_of_no_head '`' (chars "``") (p2.dropWhile isPySpace)
      (fun c hc => (hp2 c (mem_dropWhile_imp _ _ _ hc)).1)]
  have hD : pyStrip (p1 ++ (ob ++ (w2 ++ p2.dropWhile isPySpace)))
      = p1.dropWhile isPySpace ++ ob ++
        (((w2 ++ p2.dropWhile isPySpace).reverse.dropWhile isPySpace).reverse : Str) := by
    have h := pyStrip_decomp p1 ob (w2 ++ p2.dropWhile isPySpace) obt hob hlast
    simpa [List.append_assoc] using h
  unfold cleanResponse
  rw [hA, hB, hC, hD]

theorem reverse_cons_of_getLast (l : Str) (c : Char) (h : l.getLast? = some c) :
    ∃ t, l.reverse = c :: t := by
  have h1 : l.reverse.head? = some c := by
    rw [List.head?_reverse]
    exact h
  match hrev : l.reverse with
  | [] => rw [hrev] at h1; simp at h1
  | x :: t =>
    rw [hrev] at h1
    simp at h1
    exact ⟨t, by rw [h1]⟩

theorem cleanResponse_ob (ob obt : Str)
    (hob2 : ∀ c ∈ ob, c ≠ '`' ∧ c ≠ '<')
    (hob : ob = '{' :: obt)
    (hlast : ob.getLast? = some '}') :
    cleanResponse ob = ob := by
  unfold cleanResponse
  rw [stripThink_eq_self_of_no_lt ob (fun c hc => (hob2 c hc).2)]
  rw [subPatWs_eq_self_of_no_head '`' (chars "``json") ob (fun c hc => (hob2 c hc).1)]
  rw [subPatWs_eq_self_of_no_head '`' (chars "``") ob (fun c hc => (hob2 c hc).1)]
  obtain ⟨obr, hobr⟩ := reverse_cons_of_getLast ob '}' hlast
  unfold pyStrip
  rw [hob, List.dropWhile_cons_of_neg (by decide), ← hob]
  rw [hobr, List.dropWhile_cons_of_neg (by decide), ← hobr, List.reverse_reverse]

/-- Whether the direct `json.loads` of the whole cleaned text yields a
mapping that carries a `tool` key (the case in which
`_parse_tool_request` would answer from the direct parse instead of
the brace-recovery scan). -/
def isToolDict (cs : Str) : Bool :=
  match jsonLoads cs with
  | some (Json.obj m) => dictContains m toolKey
  | _ => false

theorem tryToolDict_fallthrough_of_not_toolDict (cs : Str)
    (h : isToolDict cs = false) : tryToolDict cs = .fallthrough := by
  unfold isToolDict at h
  unfold tryToolDict
  match hj : jsonLoads cs with
  | none => rfl
  | some Json.null => rfl
  | some (Json.bool b) => rfl
  | some (Json.num l) => rfl
  | some (Json.str s) => rfl
  | some (Json.arr xs) => rfl
  | some (Json.obj mm) =>
    rw [hj] at h
    simp only [] at h
    simp [h]

theorem tryToolDict_ret_some (cs : Str) (m : JDict) (name : Str)
    (hload : jsonLoads cs = some (Json.obj m))
    (htool : dictGet m toolKey = some (Json.str name))
    (hname : name ≠ chars "null") :
    tryToolDict cs = .ret (some m) := by
  unfold tryToolDict
  rw [hload]
  simp only [dictContains_of_dictGet htool, if_true]
  simp [htool, hname]

/-- C4 (amended): a fenced tool-request object wrapped in prose is
recovered identically to parsing the bare object, provided the
recovery heuristic's blind spots are avoided: the prose carries no
backtick, no `<` and (before the object) no `\x7b`; the text between
fences is the object surrounded by whitespace; the text after the
closing fence does not begin with `json`; the object is
character-brace-balanced (no brace inside its string literals), free
of backticks and `<`, and parses as a mapping whose `tool` value is a
tool name; and the prose-wrapped cleaned text does not itself parse
as a mapping with a `tool` key. The original claim fails without
these provisos — see the counterexample, where a single `\x7b` inside
the prose derails the depth scan. -/
theorem c4_fenced_object_recovery (p1 w1 ob w2 p2 obt : Str) (m : JDict) (name : Str)
    (hp1 : ∀ c ∈ p1, c ≠ '{' ∧ c ≠ '`' ∧ c ≠ '<')
    (hp2 : ∀ c ∈ p2, c ≠ '`' ∧ c ≠ '<')
    (hw1 : ∀ c ∈ w1, isPySpace c = true)
    (hw2 : ∀ c ∈ w2, isPySpace c = true)
    (hob2 : ∀ c ∈ ob, c ≠ '`' ∧ c ≠ '<')
    (hob : ob = '{' :: obt)
    (hlast : ob.getLast? = some '}')
    (hjson : (chars "json").isPrefixOf p2 = false)
    (hbal : extract_json_object ob = some ob)
    (hload : jsonLoads ob = some (Json.obj m))
    (htool : dictGet m toolKey = some (Json.str name))
    (hnamenull : name ≠ chars "null")
    (hdirect : isToolDict (cleanResponse
        (p1 ++ (chars "```json" ++ (w1 ++ (ob ++ (w2 ++ (chars "```" ++ p2))))))) = false) :
    parse_tool_request (p1 ++ (chars "```json" ++ (w1 ++ (ob ++ (w2 ++ (chars "```" ++ p2))))))
      = some m ∧
    parse_tool_request ob = some m := by
  have hretob := tryToolDict_ret_some ob m name hload htool hnamenull
  constructor
  · have hclean := cleanResponse_decomp p1 w1 ob w2 p2 obt hp1 hp2 hw1 hw2 hob2 hob
      hlast hjson
    have hfall := tryToolDict_fallthrough_of_not_toolDict _ hdirect
    have hext : extract_json_object (cleanResponse
        (p1 ++ (chars "```json" ++ (w1 ++ (ob ++ (w2 ++ (chars "```" ++ p2)))))))
        = some ob := by
      rw [hclean]
      exact extract_json_object_extend (p1.dropWhile isPySpace) ob _ obt hob hbal
        (fun c hc => (hp1 c (mem_dropWhile_imp _ _ _ hc)).1)
    simp only [parse_tool_request, hfall, hext, hretob]
  · have hcleanob := cleanResponse_ob ob obt hob2 hob hlast
    simp only [parse_tool_request, hcleanob, hretob]

/-- C4 counterexample: with a single `\x7b` in the surrounding prose the
depth scan starts at the prose brace and never returns to depth zero,
so the parser yields `None`, while the bare object parses to the tool
request — the claim's unrestricted "arbitrary surrounding prose" is
false. -/
theorem c4_counterexample :
    parse_tool_request
        (chars "note \x7b see:\n```json\n\x7b\"tool\": \"read_file\", \"params\": \x7b\"path\": \"a.txt\"\x7d\x7d\n```")
      = none ∧
    parse_tool_request
        (chars "\x7b\"tool\": \"read_file\", \"params\": \x7b\"path\": \"a.txt\"\x7d\x7d")
      = some [(toolKey, Json.str (chars "read_file")),
              (chars "params", Json.obj [(chars "path", Json.str (chars "a.txt"))])] := by
  constructor
  · decide
  · decide

set_option maxRecDepth 4000 in
/-- C4 witness: concrete prose, fences and object. -/
theorem c4_witness :
    parse_tool_request (chars "Sure, here is the plan: " ++ (chars "```json" ++ (chars "\n" ++
        (chars "\x7b\"tool\": \"read_file\", \"params\": \x7b\"path\": \"a.txt\"\x7d\x7d" ++
         (chars "\n" ++ (chars "```" ++ chars " done"))))))
      = some [(toolKey, Json.str (chars "read_file")),
              (chars "params", Json.obj [(chars "path", Json.str (chars "a.txt"))])] ∧
    parse_tool_request (chars "\x7b\"tool\": \"read_file\", \"params\": \x7b\"path\": \"a.txt\"\x7d\x7d")
      = some [(toolKey, Json.str (chars "read_file")),
              (chars "params", Json.obj [(chars "path", Json.str (chars "a.txt"))])] :=
  c4_fenced_object_recovery (chars "Sure, here is the plan: ") (chars "\n")
    (chars "\x7b\"tool\": \"read_file\", \"params\": \x7b\"path\": \"a.txt\"\x7d\x7d")
    (chars "\n") (chars " done")
    (chars "\"tool\": \"read_file\", \"params\": \x7b\"path\": \"a.txt\"\x7d\x7d")
    [(toolKey, Json.str (chars "read_file")),
     (chars "params", Json.obj [(chars "path", Json.str (chars "a.txt"))])]
    (chars "read_file")
    (by decide) (by decide) (by decide) (by decide) (by decide) (by decide)
    (by decide) (by decide) (by decide) (by decide) (by decide) (by decide)
    (by decide)

end LEAP
